import Mathlib

/-!
Verification of the normalization and reconciliation engine of M3UtoStrm.py.

The Python source is shallowly embedded: strings are `List Char`, the regular
expressions of the source are specialized executable matchers (with their
backtracking behaviour worked out case by case), filesystem effects are an
explicit list of operations, and the external collaborators (genre lookup,
configuration keyword lists, filesystem oracles) are parameters.

Modelling notes, applying throughout:
* `unicodedata.normalize('NFKD', t).encode('ascii', 'ignore')` is modelled as
  dropping non-ASCII characters (an NFKD-decomposable character contributes its
  base letter in Python but is dropped here; all inputs of interest are ASCII,
  where both agree and the step is the identity).
* Python's `\w`, `\s`, `\d` are modelled by their ASCII subsets.
* Python dictionaries are association lists in insertion order; the thread pool
  of `create_strm_files` is modelled as a sequential fold in input order.
-/

namespace M3U

abbrev Str := List Char

/-- Python ASCII whitespace class `\s`. -/
def isWs (c : Char) : Bool :=
  c = ' ' || c = '\t' || c = '\n' || c = '\r' || c = '\x0b' || c = '\x0c'

/-- Python ASCII word-character class `\w`. -/
def isWordChar (c : Char) : Bool :=
  c.isAlpha || c.isDigit || c = '_'

def isAsciiChar (c : Char) : Bool := c.toNat < 128

def toLowerStr (l : Str) : Str := l.map Char.toLower

/-- Python `str.strip()`, left part. -/
def lstrip (l : Str) : Str := l.dropWhile isWs

/-- Python `str.strip()`, right part. -/
def rstrip (l : Str) : Str := ((l.reverse).dropWhile isWs).reverse

/-- Python `str.strip()`. -/
def strip (l : Str) : Str := rstrip (lstrip l)

/-- Python `re.sub(r"\s+", " ", l)`: every maximal whitespace run becomes one
space (processed from the right; a run's members merge into the single space
already emitted for the run's tail). -/
def collapseWs : Str → Str
  | [] => []
  | c :: rest =>
    let r := collapseWs rest
    if isWs c then
      if r.head? = some ' ' then r else ' ' :: r
    else c :: r

/-- Python `str.zfill` for digit strings. -/
def zfill (w : Nat) (s : Str) : Str := List.replicate (w - s.length) '0' ++ s

def listStartsWith : Str → Str → Bool
  | [], _ => true
  | _ :: _, [] => false
  | a :: as, b :: bs => a = b && listStartsWith as bs

/-- Python's `needle in haystack` substring test. -/
def isSubstr (n : Str) : Str → Bool
  | [] => n.isEmpty
  | b :: bs => listStartsWith n (b :: bs) || isSubstr n bs

/-! ### Specialized regex engines

`tv_pattern = re.compile(r"(?i)S(?:eason)?\s*(\d{1,4})\s*E(?:pisode)?\s*(\d{1,4})")`.
Backtracking collapses to a function: `\s*` before a non-whitespace requirement is
a deterministic skip; a digit run of length > 4 for the first group cannot be
rescued by backtracking (each shorter prefix is followed by another digit, never
by `E`), so it fails; the trailing group keeps its first four digits. -/

/-- Case-insensitive literal word consumption (for the optional `eason`/`pisode`). -/
def eatWordCI : Str → Str → Option Str
  | [], l => some l
  | _ :: _, [] => none
  | a :: as, b :: bs => if a.toLower = b.toLower then eatWordCI as bs else none

/-- `(?:pisode)?\s*(\d{1,4})` with greedy optional word: returns (group, rest). -/
def tvDigits2 (l : Str) : Option (Str × Str) :=
  let l1 := l.dropWhile isWs
  let ds := l1.takeWhile Char.isDigit
  let rest := l1.dropWhile Char.isDigit
  if ds.isEmpty then none else some (ds.take 4, ds.drop 4 ++ rest)

def afterE (l : Str) : Option (Str × Str) :=
  match eatWordCI ['p', 'i', 's', 'o', 'd', 'e'] l with
  | some l2 => tvDigits2 l2 <|> tvDigits2 l
  | none => tvDigits2 l

/-- `\s*(\d{1,4})\s*E(?:pisode)?\s*(\d{1,4})` after the leading `S(?:eason)?`. -/
def afterS (l : Str) : Option ((Str × Str) × Str) :=
  let l1 := l.dropWhile isWs
  let ds := l1.takeWhile Char.isDigit
  let rest := l1.dropWhile Char.isDigit
  if ds.isEmpty then none
  else if ds.length ≤ 4 then
    match rest.dropWhile isWs with
    | c :: rest2 =>
      if c = 'E' || c = 'e' then (afterE rest2).map (fun p => ((ds, p.1), p.2)) else none
    | [] => none
  else none

/-- Try `tv_pattern` anchored at the head; returns groups and the rest after the match. -/
def tryTvAt : Str → Option ((Str × Str) × Str)
  | [] => none
  | c :: rest =>
    if c = 'S' || c = 's' then
      match eatWordCI ['e', 'a', 's', 'o', 'n'] rest with
      | some rest2 => afterS rest2 <|> afterS rest
      | none => afterS rest
    else none

/-- `tv_pattern.search`: groups of the first match. -/
def searchTv : Str → Option (Str × Str)
  | [] => none
  | c :: rest =>
    match tryTvAt (c :: rest) with
    | some (g, _) => some g
    | none => searchTv rest

/-- `tv_pattern.sub(" ", l)`: every match replaced by one space (fuelled scan). -/
def subTvFuel : Nat → Str → Str
  | _, [] => []
  | 0, l => l
  | f + 1, c :: rest =>
    match tryTvAt (c :: rest) with
    | some (_, r) => ' ' :: subTvFuel f r
    | none => c :: subTvFuel f rest

def subTv (l : Str) : Str := subTvFuel l.length l

/-- `.*?` up to a closing delimiter (`.` does not cross a newline). -/
def scanTil (d : Char) : Str → Option Str
  | [] => none
  | c :: rest => if c = d then some rest else if c = '\n' then none else scanTil d rest

/-- `\d{4}\)` after an opening parenthesis: returns (digits, rest). -/
def matchYearTail : Str → Option (Str × Str)
  | a :: b :: c :: d :: e :: rest =>
    if a.isDigit && b.isDigit && c.isDigit && d.isDigit && e = ')' then
      some ([a, b, c, d], rest)
    else none
  | _ => none

/-- `(\(\d{4}\))` anchored at the head: returns (matched text, rest). -/
def tryYearAt : Str → Option (Str × Str)
  | [] => none
  | c :: rest =>
    if c = '(' then (matchYearTail rest).map (fun p => ('(' :: p.1 ++ [')'], p.2))
    else none

/-- One alternative of `(\[.*?\]|\{.*?\}|\(\d{4}\))` anchored at the head. -/
def tryCleanAt : Str → Option Str
  | [] => none
  | c :: rest =>
    if c = '[' then scanTil ']' rest
    else if c = '\x7b' then scanTil '\x7d' rest
    else if c = '(' then (matchYearTail rest).map Prod.snd
    else none

/-- `re.sub(r"(\[.*?\]|\{.*?\}|\(\d{4}\))", "", l)` (first cleaning of `parse_tv_filename`). -/
def cleanSubFuel : Nat → Str → Str
  | _, [] => []
  | 0, l => l
  | f + 1, c :: rest =>
    match tryCleanAt (c :: rest) with
    | some r => cleanSubFuel f r
    | none => c :: cleanSubFuel f rest

def cleanSub (l : Str) : Str := cleanSubFuel l.length l

/-- `re.sub(r"\(\d{4}\)", "", l)` (year removal of `extract_tv_details`). -/
def yearSubFuel : Nat → Str → Str
  | _, [] => []
  | 0, l => l
  | f + 1, c :: rest =>
    match tryYearAt (c :: rest) with
    | some (_, r) => yearSubFuel f r
    | none => c :: yearSubFuel f rest

def yearSub (l : Str) : Str := yearSubFuel l.length l

/-- `re.sub(r"(\(\d{4}\)).*$", r"\1", l)` (`strip_after_year`). Without MULTILINE,
`.*$` matches only when the rest after the year has no newline, or exactly one
trailing newline (which `$` precedes and the match does not consume). -/
def stripAfterYearFuel : Nat → Str → Str
  | _, [] => []
  | 0, l => l
  | f + 1, c :: rest =>
    match tryYearAt (c :: rest) with
    | some (yr, r) =>
      if r.contains '\n' = false then yr
      else if r.dropLast.contains '\n' = false && r.getLast? = some '\n' then yr ++ ['\n']
      else c :: stripAfterYearFuel f rest
    | none => c :: stripAfterYearFuel f rest

def strip_after_year (l : Str) : Str := stripAfterYearFuel l.length l

/-! `re.sub(r"[\{\(]?\btt\d+\b[\}\)]?", "", title, flags=IGNORECASE)` (`remove_imdb_id`).
The trailing `\b` after `\d+` cannot be rescued by a shorter digit run (the next
character would be a digit), so the maximal run must be followed by a non-word
character or the end. The scanner tracks the previous original character for `\b`. -/

def isTchar (c : Char) : Bool := c = 't' || c = 'T'

/-- `tt\d+\b[\}\)]?` with the leading `\b` already established.
Returns (last matched character, rest). -/
def eatTT : Str → Option (Char × Str)
  | t1 :: t2 :: rest =>
    if isTchar t1 && isTchar t2 then
      let ds := rest.takeWhile Char.isDigit
      let r := rest.dropWhile Char.isDigit
      match ds.getLast? with
      | none => none
      | some dl =>
        match r with
        | [] => some (dl, [])
        | x :: xs =>
          if isWordChar x then none
          else if x = '\x7d' || x = ')' then some (x, xs)
          else some (dl, x :: xs)
    else none
  | _ => none

def isWordB : Option Char → Bool
  | none => false
  | some c => isWordChar c

def tryImdbAt (prev : Option Char) : Str → Option (Char × Str)
  | [] => none
  | c :: rest =>
    if c = '\x7b' || c = '(' then eatTT rest
    else if isWordB prev then none
    else eatTT (c :: rest)

def rmImdbFuel : Nat → Option Char → Str → Str
  | _, _, [] => []
  | 0, _, l => l
  | f + 1, prev, c :: rest =>
    match tryImdbAt prev (c :: rest) with
    | some (lc, r) => rmImdbFuel f (some lc) r
    | none => c :: rmImdbFuel f (some c) rest

def remove_imdb_id (l : Str) : Str := rmImdbFuel l.length none l

/-- `re.match(r"(.*?)[\s\(\[](\d{4})[\)\]]$", title)`: the year block that must sit at
the end (`$` also matches before one trailing newline); `(.*?)` is lazy and cannot
cross a newline. Checks `\d{4}` followed by `)` or `]` then the end. -/
def mvYr : Str → Option Str
  | d1 :: d2 :: d3 :: d4 :: cl :: tail =>
    if d1.isDigit && d2.isDigit && d3.isDigit && d4.isDigit && (cl = ')' || cl = ']')
        && (tail.isEmpty || tail = ['\n']) then
      some [d1, d2, d3, d4]
    else none
  | _ => none

def isSepMv (c : Char) : Bool := isWs c || c = '(' || c = '['

def movieSplitGo (acc : Str) : Str → Option (Str × Str)
  | [] => none
  | c :: rest =>
    match (if isSepMv c then mvYr rest else none) with
    | some yr => some (acc.reverse, yr)
    | none => if c = '\n' then none else movieSplitGo (c :: acc) rest

/-! ### The normalizer functions of M3UtoStrm.py -/

/-- `sanitize_title` (M3UtoStrm.py lines 82-88): strip, NFKD-fold to ASCII,
remove imdb ids, drop characters outside `\w\s()-`, collapse whitespace, strip. -/
def allowedSan (c : Char) : Bool :=
  isWordChar c || isWs c || c = '(' || c = ')' || c = '-'

def sanitize_title (title : Str) : Str :=
  let t1 := strip title
  let t2 := t1.filter isAsciiChar
  let t3 := remove_imdb_id t2
  let t4 := t3.filter allowedSan
  strip (collapseWs t4)

/-- `tv_key` (lines 79-80): the zero-padded episode key. -/
def tv_key (show_name season_num episode_num : Str) : Str :=
  toLowerStr (sanitize_title show_name) ++ (' ' :: 's' :: zfill 2 season_num)
    ++ (' ' :: 'e' :: zfill 2 episode_num)

/-- Character class kept by `re.sub(r"[^\w\s-]", "", core)` in `parse_tv_filename`. -/
def tvNameChar (c : Char) : Bool := isWordChar c || isWs c || c = '-'

/-- `parse_tv_filename` (lines 92-104). Returns `(show_name, season_num, episode_num)`;
the Python `(None, None, None)` result is `none`. -/
def parse_tv_filename (filename : Str) : Option (Str × Str × Str) :=
  let cleaned := cleanSub filename
  match searchTv cleaned with
  | none => none
  | some (sn, en) =>
    let cleaned2 := strip (subTv cleaned)
    let core := if cleaned2.contains '-' then cleaned2.takeWhile (fun c => c ≠ '-')
      else cleaned2
    let show_name := toLowerStr (strip (collapseWs (core.filter tvNameChar)))
    some (show_name, sn, en)

/-- `extract_tv_details` (lines 106-118). Returns
`(show_folder_name, season_folder_name, episode_str)`. -/
def extract_tv_details (title : Str) : Option (Str × Str × Str) :=
  let t1 := strip (yearSub title)
  match searchTv t1 with
  | none => none
  | some (sn, en) =>
    let t2 := strip (subTv t1)
    let show_folder := sanitize_title t2
    some (show_folder, "Season ".toList ++ sn,
      show_folder ++ (' ' :: 'S' :: sn) ++ ('E' :: en))

/-- `extract_movie_details` (lines 162-166): `(sanitized name, optional year)`. -/
def extract_movie_details (title : Str) : Str × Option Str :=
  match movieSplitGo [] title with
  | some (nm, yr) => (sanitize_title nm, some yr)
  | none => (sanitize_title title, none)

/-! ### Data model -/

inductive Category
  | tvshow
  | documentary
  | movie
deriving DecidableEq, Repr

structure VodEntry where
  title : Str
  url : Str
  category : Category
deriving DecidableEq, Repr

/-- A filesystem path, as its components. -/
abbrev Path := List Str

inductive FsOp
  | mkdirs (dir : Path)
  | writeFile (path : Path) (contents : Str)
  | rmtree (dir : Path)
  | removeFile (path : Path)
deriving DecidableEq, Repr

def FsOp.isWrite : FsOp → Bool
  | .writeFile _ _ => true
  | _ => false

/-- A playlist-cache value: either the legacy shape (a bare URL string) or the
structured record written by `create_strm_files`. -/
inductive CacheVal
  | legacy (url : Str)
  | stored (url : Str) (path : Path)
deriving DecidableEq, Repr

abbrev Cache := List (Str × CacheVal)

def cacheSet (c : Cache) (k : Str) (v : CacheVal) : Cache :=
  if c.any (fun p => p.1 = k) then c.map (fun p => if p.1 = k then (k, v) else p)
  else c ++ [(k, v)]

def cacheLookup (c : Cache) (k : Str) : Option CacheVal :=
  match c.find? (fun p => p.1 = k) with
  | some p => some p.2
  | none => none

/-! ### Classifier (parse_m3u_async, lines 138-155) -/

/-- Category selection from the lower-cased group label by keyword substring
match, in the fixed priority order of the source (lines 144-151). -/
def classify_group (group : Str) (tvKw docKw movKw : List Str) : Category :=
  if tvKw.any (fun k => isSubstr k group) then Category.tvshow
  else if docKw.any (fun k => isSubstr k group) then Category.documentary
  else if movKw.any (fun k => isSubstr k group) then Category.movie
  else Category.movie

/-- One `#EXTINF` block of `parse_m3u_async` after the group-title pattern matched
(lines 140-155): lower/strip the group, strip-after-year then sanitize the title,
classify, and keep the entry when the URL is nonempty and the title unseen. -/
def mk_vod_entry (groupRaw titleRaw urlRaw : Str) (tvKw docKw movKw : List Str)
    (seenTitles : List Str) : Option VodEntry :=
  let group := toLowerStr (strip groupRaw)
  let title := sanitize_title (strip_after_year (strip titleRaw))
  let url := strip urlRaw
  if url.isEmpty || seenTitles.contains title then none
  else some ⟨title, url, classify_group group tvKw docKw movKw⟩

/-- Modelled from the spec: the external configuration file `config.json`
(`tv_group_keywords`) is not in src; the spec fixes only that a group label such
as `"US | TV SHOWS"` is classified as a TV show, so the list is modelled as
containing the keyword `"tv"`. -/
def tv_group_keywords : List Str := ["tv".toList]

/-- Modelled from the spec: `doc_group_keywords` of the external `config.json`,
a documentary keyword list. -/
def doc_group_keywords : List Str := ["documentar".toList]

/-- Modelled from the spec: `movie_group_keywords` of the external `config.json`,
a movie keyword list. -/
def movie_group_keywords : List Str := ["movie".toList]

/-! ### Library scanner key (build_existing_media_cache, lines 213-233) -/

/-- The normalized key `build_existing_media_cache` adds for one video file with
stem `name` found under directory `root`: the unpadded episode key when the path
contains "tv shows" (skipping unparsable names), else the movie key. -/
def library_file_key (root : Str) (name : Str) : Option Str :=
  if isSubstr "tv shows".toList (toLowerStr root) then
    match parse_tv_filename name with
    | some (sh, sn, en) =>
      if sh.isEmpty || sn.isEmpty || en.isEmpty then none
      else some (toLowerStr (toLowerStr (sanitize_title sh)
        ++ (' ' :: 's' :: sn) ++ (' ' :: 'e' :: en)))
    | none => none
  else some (toLowerStr (sanitize_title (strip_after_year name)))

/-! ### Reconciliation engine (process_entry, lines 275-352) -/

def should_ignore_title (title : Str) (ignoreList : List Str) : Bool :=
  ignoreList.any (fun kw => isSubstr (toLowerStr kw) (toLowerStr title))

/-- The Movie/Documentary base filename: `f"{name} ({year})" if year else name`. -/
def base_filename (nm : Str) (yr : Option Str) : Str :=
  match yr with
  | some y => nm ++ (' ' :: '(' :: y) ++ [')']
  | none => nm

/-- The non-TV placement step of `process_entry` (lines 308-336): check the
existing-media cache, then folder and pointer path under the category root.
Returns `none` on the skip, else `(target folder, strm path, base)`. -/
def place_non_tv (dir : Path) (nm : Str) (yr : Option Str) (existing : List Str) :
    Option (Path × Path × Str) :=
  let base := base_filename nm yr
  if existing.contains (toLowerStr base) then none
  else some (dir ++ [base], dir ++ [base, base ++ ".strm".toList], base)

/-- The tail of `process_entry` (lines 337-352): the redundant non-TV
existing-media re-check (it sits after `os.makedirs`, line 337-340), then the
dry-run split; the folder creation has already been emitted. -/
def finish_entry (target strm : Path) (isTv : Bool) (base : Str)
    (existing : List Str) (dry : Bool) (title url : Str) :
    List FsOp × Option (Str × Str × Path) :=
  if !isTv && existing.contains (toLowerStr base) then ([FsOp.mkdirs target], none)
  else if dry then ([FsOp.mkdirs target], some (title, url, strm))
  else ([FsOp.mkdirs target, FsOp.writeFile strm (url ++ ['\n'])],
    some (title, url, strm))

/-- `process_entry` (lines 275-352). The external genre lookup is a parameter;
`cache` is passed exactly as in the source (which never reads it). The returned
operation list holds the filesystem effects in program order; a successful write
yields the `(title, url, path)` triple recorded by the caller. -/
def process_entry (entry : VodEntry) (movies_dir tvshows_dir docs_dir : Path)
    (cache : Cache) (existing_media : List Str) (dry_run : Bool)
    (ignore_tv ignore_movies : List Str)
    (genre_lookup : Str → Option Str → List Str) :
    List FsOp × Option (Str × Str × Path) :=
  let title := entry.title
  let url := entry.url
  let ignore_list := if entry.category = Category.tvshow then ignore_tv else ignore_movies
  if should_ignore_title title ignore_list then ([], none)
  else if existing_media.contains title then ([], none)
  else
    match entry.category with
    | Category.tvshow =>
      match extract_tv_details title with
      | none => ([], none)
      | some (show_name, season_label, episode_str) =>
        match parse_tv_filename episode_str with
        | none => ([], none)
        | some (pshow, sn, en) =>
          let pshow := toLowerStr (sanitize_title pshow)
          let normalized := pshow ++ (' ' :: 's' :: sn) ++ (' ' :: 'e' :: en)
          if existing_media.contains normalized then ([], none)
          else
            let target := tvshows_dir ++ [show_name, season_label]
            let strm := target ++ [episode_str ++ ".strm".toList]
            finish_entry target strm true [] existing_media dry_run title url
    | Category.documentary =>
      let (nm, yr) := extract_movie_details title
      match place_non_tv docs_dir nm yr existing_media with
      | none => ([], none)
      | some (target, strm, base) =>
        finish_entry target strm false base existing_media dry_run title url
    | Category.movie =>
      let (nm, yr) := extract_movie_details title
      let genres := genre_lookup nm yr
      let root := if genres.contains "Documentary".toList then docs_dir else movies_dir
      match place_non_tv root nm yr existing_media with
      | none => ([], none)
      | some (target, strm, base) =>
        finish_entry target strm false base existing_media dry_run title url

/-- One step of the `create_strm_files` loop (lines 369-373): run `process_entry`
and record a successful result as `cache[title] = {url, path}`. -/
def csfStep (movies_dir tvshows_dir docs_dir : Path) (existing : List Str)
    (dry : Bool) (ig_tv ig_mv : List Str) (gl : Str → Option Str → List Str)
    (acc : Cache × List FsOp) (e : VodEntry) : Cache × List FsOp :=
  let r := process_entry e movies_dir tvshows_dir docs_dir acc.1 existing dry ig_tv ig_mv gl
  match r.2 with
  | some (t, u, p) => (cacheSet acc.1 t (CacheVal.stored u p), acc.2 ++ r.1)
  | none => (acc.1, acc.2 ++ r.1)

/-- `create_strm_files` (lines 354-373): process every entry and record each
successful result. The thread pool is modelled as a sequential fold in input
order. -/
def create_strm_files (entries : List VodEntry) (movies_dir tvshows_dir docs_dir : Path)
    (cache : Cache) (existing : List Str) (dry : Bool) (ig_tv ig_mv : List Str)
    (gl : Str → Option Str → List Str) : Cache × List FsOp :=
  entries.foldl (csfStep movies_dir tvshows_dir docs_dir existing dry ig_tv ig_mv gl)
    (cache, [])

/-! ### Cleanup engine (lines 375-462) -/

/-- `normalize_title_for_cleanup` (lines 375-381): unpadded episode key when the
title parses as an episode, else the movie key. -/
def normalize_title_for_cleanup (title : Str) : Str :=
  match parse_tv_filename title with
  | some (sh, sn, en) =>
    toLowerStr (sanitize_title sh) ++ (' ' :: 's' :: sn) ++ (' ' :: 'e' :: en)
  | none => toLowerStr (sanitize_title (strip_after_year title))

/-- `cleanup_removed_entries_from_cache` (lines 383-404). `pathExists` and
`rmFails` are the filesystem oracles: a failing `shutil.rmtree` is logged and
leaves the tree untouched (no operation emitted). Note the source appends the
title to `titles_to_remove` whether or not the removal succeeded. -/
def crStep (currentTitles : List Str) (pathExists rmFails : Path → Bool)
    (acc : List Str × List FsOp) (p : Str × CacheVal) : List Str × List FsOp :=
  if currentTitles.contains (normalize_title_for_cleanup p.1) then acc
  else
    match p.2 with
    | CacheVal.legacy _ => acc
    | CacheVal.stored _ path =>
      let ops :=
        if path.isEmpty then acc.2
        else
          let parent := path.dropLast
          if pathExists parent && !rmFails parent then acc.2 ++ [FsOp.rmtree parent]
          else acc.2
      (acc.1 ++ [p.1], ops)

def cleanup_removed_entries_from_cache (cache : Cache) (current : List VodEntry)
    (pathExists : Path → Bool) (rmFails : Path → Bool) : Cache × List FsOp :=
  let currentTitles := current.map (fun e => normalize_title_for_cleanup e.title)
  let step := cache.foldl (crStep currentTitles pathExists rmFails) ([], [])
  (cache.filter (fun p => !step.1.contains p.1), step.2)

/-- The per-title key of `cleanup_strm_files_when_media_exists` (lines 427-432):
zero-padded episode key, else movie key. -/
def media_exists_key (title : Str) : Str :=
  match parse_tv_filename title with
  | some (sh, sn, en) =>
    toLowerStr (sanitize_title sh) ++ (' ' :: 's' :: zfill 2 sn)
      ++ (' ' :: 'e' :: zfill 2 en)
  | none => toLowerStr (sanitize_title (strip_after_year title))

/-- `cleanup_strm_files_when_media_exists` (lines 423-444). When a matching cache
value has the legacy bare-string shape, the source evaluates `entry.get("path")`
on a `str`, which raises `AttributeError`; that crash is the `Except.error` case. -/
def cleanup_strm_files_when_media_exists (cache : Cache) (existing : List Str)
    (pathExists : Path → Bool) (rmFails : Path → Bool) :
    Except Unit (Cache × List FsOp) :=
  let rec go (pend : Cache) (toRemove : List Str) (ops : List FsOp) :
      Except Unit (List Str × List FsOp) :=
    match pend with
    | [] => Except.ok (toRemove, ops)
    | p :: rest =>
      if existing.contains (media_exists_key p.1) then
        match p.2 with
        | CacheVal.legacy _ => Except.error ()
        | CacheVal.stored _ path =>
          let ops' :=
            if pathExists path && !rmFails path then ops ++ [FsOp.removeFile path]
            else ops
          go rest (toRemove ++ [p.1]) ops'
      else go rest toRemove ops
  match go cache [] [] with
  | Except.error e => Except.error e
  | Except.ok (toRemove, ops) =>
    Except.ok (cache.filter (fun p => !toRemove.contains p.1), ops)

/-- The per-file key of `cleanup_strm_files_by_scan` (lines 452-456): `tv_key`
over the parse when it succeeds, else the movie key. -/
def scan_file_key (base : Str) : Str :=
  match parse_tv_filename base with
  | some (sh, sn, en) => tv_key sh sn en
  | none => toLowerStr (sanitize_title (strip_after_year base))

/-- The membership key `process_entry` computes for an entry and tests against
`existing_media`: the unpadded episode key for TV entries (lines 289-301), the
lower-cased base filename for Movie/Documentary entries (lines 308-340, the same
string whichever way the genre lookup resolves). -/
def entry_key (e : VodEntry) : Option Str :=
  match e.category with
  | Category.tvshow =>
    match extract_tv_details e.title with
    | none => none
    | some (_, _, ep) =>
      match parse_tv_filename ep with
      | none => none
      | some (sh, sn, en) =>
        some (toLowerStr (sanitize_title sh) ++ (' ' :: 's' :: sn) ++ (' ' :: 'e' :: en))
  | _ =>
    let (nm, yr) := extract_movie_details e.title
    some (toLowerStr (base_filename nm yr))

/-! ### Shared concrete instances for the scenario theorems -/

def moviesD : Path := ["out".toList, "Movies".toList]

def tvD : Path := ["out".toList, "TV Shows".toList]

def docsD : Path := ["out".toList, "Documentaries".toList]

/-- A genre lookup returning no genres (the fail-open default of the source). -/
def noGenres : Str → Option Str → List Str := fun _ _ => []

/-! ### Helper lemmas -/

/-- `process_entry` never inspects its `cache` argument (the parameter is dead in
the source, kept only for signature fidelity). -/
theorem process_entry_cache_unused (e : VodEntry) (m tv d : Path) (c c' : Cache)
    (ex : List Str) (dr : Bool) (itv imv : List Str)
    (gl : Str → Option Str → List Str) :
    process_entry e m tv d c ex dr itv imv gl = process_entry e m tv d c' ex dr itv imv gl :=
  rfl

theorem create_fold_ops_cache_irrel (m tv d : Path) (ex : List Str) (dr : Bool)
    (itv imv : List Str) (gl : Str → Option Str → List Str) :
    ∀ (entries : List VodEntry) (c c' : Cache) (ops : List FsOp),
      (entries.foldl (csfStep m tv d ex dr itv imv gl) (c, ops)).2
      = (entries.foldl (csfStep m tv d ex dr itv imv gl) (c', ops)).2
  | [], _, _, _ => rfl
  | e :: es, c, c', ops => by
    have hpe : process_entry e m tv d c ex dr itv imv gl
        = process_entry e m tv d c' ex dr itv imv gl := rfl
    simp only [List.foldl_cons, csfStep]
    rw [show (process_entry e m tv d c ex dr itv imv gl)
        = (process_entry e m tv d c' ex dr itv imv gl) from hpe]
    cases hr : (process_entry e m tv d c' ex dr itv imv gl).2 with
    | none =>
      simp only [hr]
      exact create_fold_ops_cache_irrel m tv d ex dr itv imv gl es c c'
        (ops ++ (process_entry e m tv d c' ex dr itv imv gl).1)
    | some t =>
      obtain ⟨t1, u1, p1⟩ := t
      simp only [hr]
      exact create_fold_ops_cache_irrel m tv d ex dr itv imv gl es
        (cacheSet c t1 (CacheVal.stored u1 p1)) (cacheSet c' t1 (CacheVal.stored u1 p1))
        (ops ++ (process_entry e m tv d c' ex dr itv imv gl).1)

/-! ### Claim theorems -/

/-- C10: the create/skip decision, target path and written contents of
`process_entry` are independent of the playlist-cache passed in: two invocations
differing only in the cache return identical operation lists and results. -/
theorem c10_theorem (e : VodEntry) (m tv d : Path) (c1 c2 : Cache) (ex : List Str)
    (dr : Bool) (itv imv : List Str) (gl : Str → Option Str → List Str) :
    process_entry e m tv d c1 ex dr itv imv gl = process_entry e m tv d c2 ex dr itv imv gl :=
  rfl

/-- C3 (amended): re-running `create_strm_files` on the same playlist and library
with the cache produced by the first run performs exactly the same filesystem
operations again (the cache is never consulted before folder creation or file
write); the second run is not free of mutations, it repeats them byte-for-byte. -/
theorem c3_theorem (entries : List VodEntry) (m tv d : Path) (c : Cache)
    (ex : List Str) (dr : Bool) (itv imv : List Str)
    (gl : Str → Option Str → List Str) :
    (create_strm_files entries m tv d
        (create_strm_files entries m tv d c ex dr itv imv gl).1 ex dr itv imv gl).2
      = (create_strm_files entries m tv d c ex dr itv imv gl).2 :=
  create_fold_ops_cache_irrel m tv d ex dr itv imv gl entries
    (create_strm_files entries m tv d c ex dr itv imv gl).1 c []

/-- C3 counterexample: on an unchanged playlist and library, the second
reconciliation run over the cache populated by the first run still emits a
pointer-file write for the already-materialized entry, so it does not perform
zero filesystem mutations, and the cache pair is not consulted before the write. -/
theorem c3_counterexample :
    ((create_strm_files [⟨"Solo Film (2020)".toList, "http://u".toList, Category.movie⟩]
        moviesD tvD docsD
        (create_strm_files [⟨"Solo Film (2020)".toList, "http://u".toList, Category.movie⟩]
          moviesD tvD docsD [] [] false [] [] noGenres).1
        [] false [] [] noGenres).2.any FsOp.isWrite) = true := by
  decide

/-- C1 counterexample: the library file `TV Shows/Show Name S1E2.mkv` yields the
(unpadded) library key `"show name s1 e2"`; the playlist entry
`"Show Name S01E02"` has the same IdentityKey once season and episode are
uniformly zero-padded (the code's own padded normalizer agrees on both), yet
`process_entry` writes a pointer file for it — the membership test compares the
unpadded strings literally, so padded-equal keys do not suppress creation. -/
theorem c1_counterexample :
    library_file_key "TV Shows".toList "Show Name S1E2".toList
        = some "show name s1 e2".toList
      ∧ media_exists_key "Show Name S01E02".toList
        = media_exists_key "Show Name S1E2".toList
      ∧ ((process_entry ⟨"Show Name S01E02".toList, "http://u".toList, Category.tvshow⟩
          moviesD tvD docsD [] ["show name s1 e2".toList] false [] [] noGenres).1.any
            FsOp.isWrite) = true := by
  refine ⟨by decide, by decide, by decide⟩

/-- C1 (amended): when the membership key that `process_entry` itself computes
for an entry (the literal, unpadded episode key for shows; the lower-cased base
name for movies/documentaries) is present in the library key set, no pointer
file is written — indeed no filesystem operation happens at all — regardless of
the playlist-cache state. (As stated the claim fails: presence up to uniform
zero-padding does not suppress creation, see the counterexample.) -/
theorem c1_theorem (e : VodEntry) (m tv d : Path) (c : Cache) (ex : List Str)
    (dr : Bool) (itv imv : List Str) (gl : Str → Option Str → List Str) (k : Str)
    (hk : entry_key e = some k) (hex : k ∈ ex) :
    process_entry e m tv d c ex dr itv imv gl = ([], none) := by
  obtain ⟨title, url, cat⟩ := e
  cases cat with
  | tvshow =>
    simp only [entry_key] at hk
    by_cases hig : should_ignore_title title itv = true
    · simp [process_entry, hig]
    · by_cases hti : title ∈ ex
      · simp [process_entry, hig, hti]
      · cases h1 : extract_tv_details title with
        | none => simp [h1] at hk
        | some tr =>
          obtain ⟨sn, sl, ep⟩ := tr
          cases h2 : parse_tv_filename ep with
          | none => simp [h1, h2] at hk
          | some pr =>
            obtain ⟨psh, s, en⟩ := pr
            simp only [h1, h2, Option.some.injEq] at hk
            rw [← hk] at hex
            simp_all [process_entry, h1, h2]
  | documentary =>
    simp only [entry_key] at hk
    rcases hmd : extract_movie_details title with ⟨nm, yr⟩
    simp only [hmd, Option.some.injEq] at hk
    rw [← hk] at hex
    by_cases hig : should_ignore_title title imv = true
    · simp [process_entry, hig]
    · by_cases hti : title ∈ ex
      · simp [process_entry, hig, hti]
      · simp_all [process_entry, hmd, place_non_tv]
  | movie =>
    simp only [entry_key] at hk
    rcases hmd : extract_movie_details title with ⟨nm, yr⟩
    simp only [hmd, Option.some.injEq] at hk
    rw [← hk] at hex
    by_cases hig : should_ignore_title title imv = true
    · simp [process_entry, hig]
    · by_cases hti : title ∈ ex
      · simp [process_entry, hig, hti]
      · simp_all [process_entry, hmd, place_non_tv]

/-- Witness for C1 (amended) at a concrete input: the entry
`"My Show S02E03"` whose computed key `"my show s02 e03"` is in the library set
is skipped with no filesystem operation. -/
theorem c1_witness :
    entry_key ⟨"My Show S02E03".toList, "http://u".toList, Category.tvshow⟩
        = some "my show s02 e03".toList
      ∧ process_entry ⟨"My Show S02E03".toList, "http://u".toList, Category.tvshow⟩
          moviesD tvD docsD [] ["my show s02 e03".toList] false [] [] noGenres
        = ([], none) :=
  ⟨by decide,
    c1_theorem ⟨"My Show S02E03".toList, "http://u".toList, Category.tvshow⟩
      moviesD tvD docsD [] ["my show s02 e03".toList] false [] [] noGenres
      "my show s02 e03".toList (by decide) (by decide)⟩

/-- C2 counterexample: for the scenario title, `strip_after_year` truncates the
episode marker away and `sanitize_title` preserves case, so the classified title
is `"The Great Show (2019)"`, not `"the great show s1e5"`, and `process_entry`
skips the entry (no valid episode pattern), writing no pointer at all. -/
theorem c2_counterexample :
    (mk_vod_entry "US | TV SHOWS".toList
        "The Great Show (2019) S1E5 1080p WEB-DL".toList "http://x".toList
        tv_group_keywords doc_group_keywords movie_group_keywords []).map VodEntry.title
      = some "The Great Show (2019)".toList
      ∧ "The Great Show (2019)".toList ≠ "the great show s1e5".toList
      ∧ (process_entry ⟨"The Great Show (2019)".toList, "http://x".toList, Category.tvshow⟩
          moviesD tvD docsD [] [] false [] [] noGenres) = ([], none) := by
  refine ⟨by decide, by decide, by decide⟩

/-- C2 (amended): the scenario entry is classified as a Show with sanitized title
`"The Great Show (2019)"` (everything after the year, including the episode
marker, is stripped; sanitization preserves case), and since that title carries
no recognizable episode marker, reconciliation skips it: no folder is created and
no pointer file is written. -/
theorem c2_theorem :
    mk_vod_entry "US | TV SHOWS".toList
        "The Great Show (2019) S1E5 1080p WEB-DL".toList "http://x".toList
        tv_group_keywords doc_group_keywords movie_group_keywords []
      = some ⟨"The Great Show (2019)".toList, "http://x".toList, Category.tvshow⟩
      ∧ (process_entry ⟨"The Great Show (2019)".toList, "http://x".toList, Category.tvshow⟩
          moviesD tvD docsD [] [] false [] [] noGenres) = ([], none) := by
  refine ⟨by decide, by decide⟩

/-- C5 counterexample: sanitization is not idempotent. For `"t.t123"` the first
pass deletes the dot after the imdb-id scan already ran, manufacturing the
pattern `tt123`, which the second pass then removes entirely. -/
theorem c5_counterexample :
    sanitize_title (sanitize_title "t.t123".toList) ≠ sanitize_title "t.t123".toList := by
  decide

/-- C6: the claim matches the spec, but the code violates it in the
superseded-by-library pass: `cleanup_removed_entries_from_cache` guards against
the legacy bare-string shape (the entry is skipped and kept), while
`cleanup_strm_files_when_media_exists` calls `entry.get("path")` on the bare
string and raises `AttributeError`, crashing the run, as soon as the legacy
entry's normalized key is in the existing-media set. -/
theorem c6_theorem :
    cleanup_removed_entries_from_cache
        [("Old Movie (2010)".toList, CacheVal.legacy "http://u".toList)] []
        (fun _ => true) (fun _ => false)
      = ([("Old Movie (2010)".toList, CacheVal.legacy "http://u".toList)], [])
      ∧ cleanup_strm_files_when_media_exists
        [("Old Movie (2010)".toList, CacheVal.legacy "http://u".toList)]
        ["old movie (2010)".toList] (fun _ => true) (fun _ => false)
      = Except.error () := by
  refine ⟨by decide, by rfl⟩

/-- C7 counterexample: a stale cache entry whose folder removal fails (the
`rmFails` oracle reports failure, so no filesystem change happens) is still
deleted from the playlist-cache: the source appends the title to
`titles_to_remove` outside the `try`, so the resulting cache is empty and the
failed deletion cannot be retried from the cache on a later run. -/
theorem c7_counterexample :
    cleanup_removed_entries_from_cache
        [("Gone Movie (2011)".toList, CacheVal.stored "http://u".toList
          (moviesD ++ ["Gone Movie (2011)".toList, "Gone Movie (2011).strm".toList]))]
        [] (fun _ => true) (fun _ => true)
      = ([], []) := by
  decide

/-- C8 counterexample: in simulate mode (`DRY_RUN = true`) `process_entry` still
emits the folder creation — `os.makedirs` runs before the dry-run check — so a
directory is created for the entry even though the claim says no directory is
created; only the pointer-file write is suppressed. -/
theorem c8_counterexample :
    process_entry ⟨"Solo Film (2020)".toList, "http://u".toList, Category.movie⟩
        moviesD tvD docsD [] [] true [] [] noGenres
      = ([FsOp.mkdirs (moviesD ++ ["Solo Film (2020)".toList])],
        some ("Solo Film (2020)".toList, "http://u".toList,
          moviesD ++ ["Solo Film (2020)".toList, "Solo Film (2020).strm".toList])) := by
  decide

theorem finish_entry_dry_ops (t s : Path) (iv : Bool) (b : Str) (ex : List Str)
    (ti u : Str) : (finish_entry t s iv b ex true ti u).1 = [FsOp.mkdirs t] := by
  unfold finish_entry
  split <;> rfl

theorem finish_entry_snd_dry (t s : Path) (iv : Bool) (b : Str) (ex : List Str)
    (ti u : Str) :
    (finish_entry t s iv b ex true ti u).2 = (finish_entry t s iv b ex false ti u).2 := by
  unfold finish_entry
  split <;> rfl

theorem process_entry_dry_no_write (e : VodEntry) (m tv d : Path) (c : Cache)
    (ex : List Str) (itv imv : List Str) (gl : Str → Option Str → List Str) :
    (process_entry e m tv d c ex true itv imv gl).1.any FsOp.isWrite = false := by
  obtain ⟨title, url, cat⟩ := e
  cases cat with
  | tvshow =>
    simp only [process_entry]
    repeat' split
    all_goals simp [finish_entry_dry_ops, FsOp.isWrite]
  | documentary =>
    simp only [process_entry]
    repeat' split
    all_goals simp [finish_entry_dry_ops, FsOp.isWrite]
  | movie =>
    simp only [process_entry]
    repeat' split
    all_goals simp [finish_entry_dry_ops, FsOp.isWrite]

theorem process_entry_dry_snd (e : VodEntry) (m tv d : Path) (c : Cache)
    (ex : List Str) (itv imv : List Str) (gl : Str → Option Str → List Str) :
    (process_entry e m tv d c ex true itv imv gl).2
      = (process_entry e m tv d c ex false itv imv gl).2 := by
  obtain ⟨title, url, cat⟩ := e
  cases cat with
  | tvshow =>
    simp only [process_entry]
    repeat' split
    all_goals simp [finish_entry_snd_dry]
  | documentary =>
    simp only [process_entry]
    repeat' split
    all_goals simp [finish_entry_snd_dry]
  | movie =>
    simp only [process_entry]
    repeat' split
    all_goals simp [finish_entry_snd_dry]

theorem csf_fold_fst_dry (m tv d : Path) (ex : List Str) (itv imv : List Str)
    (gl : Str → Option Str → List Str) :
    ∀ (entries : List VodEntry) (c : Cache) (ops ops' : List FsOp),
      (entries.foldl (csfStep m tv d ex true itv imv gl) (c, ops)).1
      = (entries.foldl (csfStep m tv d ex false itv imv gl) (c, ops')).1
  | [], _, _, _ => rfl
  | e :: es, c, ops, ops' => by
    simp only [List.foldl_cons, csfStep]
    rw [process_entry_dry_snd e m tv d c ex itv imv gl]
    cases hr : (process_entry e m tv d c ex false itv imv gl).2 with
    | none =>
      simp only [hr]
      exact csf_fold_fst_dry m tv d ex itv imv gl es c _ _
    | some t =>
      obtain ⟨t1, u1, p1⟩ := t
      simp only [hr]
      exact csf_fold_fst_dry m tv d ex itv imv gl es (cacheSet c t1 (CacheVal.stored u1 p1)) _ _

theorem csf_fold_dry_no_write (m tv d : Path) (ex : List Str) (itv imv : List Str)
    (gl : Str → Option Str → List Str) :
    ∀ (entries : List VodEntry) (c : Cache) (ops : List FsOp),
      ops.any FsOp.isWrite = false →
      (entries.foldl (csfStep m tv d ex true itv imv gl) (c, ops)).2.any FsOp.isWrite = false
  | [], _, _, h => h
  | e :: es, c, ops, h => by
    simp only [List.foldl_cons, csfStep]
    have hw := process_entry_dry_no_write e m tv d c ex itv imv gl
    have happ : (ops ++ (process_entry e m tv d c ex true itv imv gl).1).any FsOp.isWrite
        = false := by
      rw [List.any_append, h, hw]; rfl
    cases hr : (process_entry e m tv d c ex true itv imv gl).2 with
    | none =>
      simp only [hr]
      exact csf_fold_dry_no_write m tv d ex itv imv gl es c _ happ
    | some t =>
      obtain ⟨t1, u1, p1⟩ := t
      simp only [hr]
      exact csf_fold_dry_no_write m tv d ex itv imv gl es
        (cacheSet c t1 (CacheVal.stored u1 p1)) _ happ

/-- C8 (amended): in simulate/no-write mode the pointer-file write is suppressed
(the emitted operations contain no file write) and each successful entry is still
recorded in the playlist-cache exactly as in a real run; however the folder
creation is not suppressed — `os.makedirs` runs before the dry-run check (see the
counterexample), so only the write part of the claim holds. -/
theorem c8_theorem (entries : List VodEntry) (m tv d : Path) (c : Cache) (ex : List Str)
    (itv imv : List Str) (gl : Str → Option Str → List Str) :
    (create_strm_files entries m tv d c ex true itv imv gl).2.any FsOp.isWrite = false
    ∧ (create_strm_files entries m tv d c ex true itv imv gl).1
      = (create_strm_files entries m tv d c ex false itv imv gl).1 :=
  ⟨csf_fold_dry_no_write m tv d ex itv imv gl entries c [] rfl,
   csf_fold_fst_dry m tv d ex itv imv gl entries c [] []⟩

/-- C9 counterexample: two distinct episodes of one show and season receive
pointer files in the same directory (`TV Shows/alpha show…/Season 01`), so the
directory directly containing a pointer file does hold another entry's pointer,
and the cleanup's recursive removal of that directory would delete both. -/
theorem c9_counterexample :
    (process_entry ⟨"Alpha Show S01E01".toList, "http://a".toList, Category.tvshow⟩
        moviesD tvD docsD [] [] false [] [] noGenres).2
      = some ("Alpha Show S01E01".toList, "http://a".toList,
          tvD ++ ["Alpha Show".toList, "Season 01".toList, "Alpha Show S01E01.strm".toList])
      ∧ (process_entry ⟨"Alpha Show S01E02".toList, "http://b".toList, Category.tvshow⟩
        moviesD tvD docsD [] [] false [] [] noGenres).2
      = some ("Alpha Show S01E02".toList, "http://b".toList,
          tvD ++ ["Alpha Show".toList, "Season 01".toList, "Alpha Show S01E02.strm".toList])
      ∧ (tvD ++ ["Alpha Show".toList, "Season 01".toList, "Alpha Show S01E01.strm".toList])
        ≠ (tvD ++ ["Alpha Show".toList, "Season 01".toList, "Alpha Show S01E02.strm".toList])
      ∧ (tvD ++ ["Alpha Show".toList, "Season 01".toList,
          "Alpha Show S01E01.strm".toList]).dropLast
        = (tvD ++ ["Alpha Show".toList, "Season 01".toList,
          "Alpha Show S01E02.strm".toList]).dropLast := by
  refine ⟨by decide, by decide, by decide, by decide⟩

theorem place_non_tv_shape (dir : Path) (nm : Str) (yr : Option Str) (ex : List Str)
    (target strm : Path) (base : Str)
    (h : place_non_tv dir nm yr ex = some (target, strm, base)) :
    strm = dir ++ [base, base ++ ".strm".toList] := by
  simp only [place_non_tv] at h
  split at h
  · exact absurd h (by simp)
  · simp only [Option.some.injEq, Prod.mk.injEq] at h
    obtain ⟨h1, h2, h3⟩ := h
    rw [← h2, h3]

theorem finish_entry_snd_path (t s : Path) (iv : Bool) (b : Str) (ex : List Str)
    (dr : Bool) (ti u : Str) (a1 a2 : Str) (p : Path)
    (h : (finish_entry t s iv b ex dr ti u).2 = some (a1, a2, p)) : p = s := by
  unfold finish_entry at h
  split at h
  · exact absurd h (by simp)
  · split at h <;> (simp only [Option.some.injEq, Prod.mk.injEq] at h; exact h.2.2.symm)

theorem process_entry_non_tv_shape (e : VodEntry) (m tv d : Path) (c : Cache)
    (ex : List Str) (dr : Bool) (itv imv : List Str)
    (gl : Str → Option Str → List Str) (t u : Str) (p : Path)
    (hcat : e.category ≠ Category.tvshow)
    (h : (process_entry e m tv d c ex dr itv imv gl).2 = some (t, u, p)) :
    ∃ dir base, p = dir ++ [base, base ++ ".strm".toList] := by
  obtain ⟨title, url, cat⟩ := e
  cases cat with
  | tvshow => exact absurd rfl hcat
  | documentary =>
    simp only [process_entry] at h
    generalize hIG : (if Category.documentary = Category.tvshow then itv else imv) = ig at h
    by_cases hig : should_ignore_title title ig = true
    · rw [if_pos hig] at h; exact absurd h (by simp)
    · rw [if_neg hig] at h
      by_cases hti : ex.contains title = true
      · rw [if_pos hti] at h; exact absurd h (by simp)
      · rw [if_neg hti] at h
        cases hp : place_non_tv d (extract_movie_details title).1
            (extract_movie_details title).2 ex with
        | none => rw [hp] at h; exact absurd h (by simp)
        | some tr =>
          obtain ⟨target, strm, base⟩ := tr
          rw [hp] at h
          refine ⟨d, base, ?_⟩
          rw [finish_entry_snd_path target strm false base ex dr title url t u p h]
          exact place_non_tv_shape d (extract_movie_details title).1
            (extract_movie_details title).2 ex target strm base hp
  | movie =>
    simp only [process_entry] at h
    generalize hIG : (if Category.movie = Category.tvshow then itv else imv) = ig at h
    generalize hR : (if (gl (extract_movie_details title).1
        (extract_movie_details title).2).contains "Documentary".toList = true
        then d else m) = root at h
    by_cases hig : should_ignore_title title ig = true
    · rw [if_pos hig] at h; exact absurd h (by simp)
    · rw [if_neg hig] at h
      by_cases hti : ex.contains title = true
      · rw [if_pos hti] at h; exact absurd h (by simp)
      · rw [if_neg hti] at h
        cases hp : place_non_tv root (extract_movie_details title).1
            (extract_movie_details title).2 ex with
        | none => rw [hp] at h; exact absurd h (by simp)
        | some tr =>
          obtain ⟨target, strm, base⟩ := tr
          rw [hp] at h
          refine ⟨root, base, ?_⟩
          rw [finish_entry_snd_path target strm false base ex dr title url t u p h]
          exact place_non_tv_shape root (extract_movie_details title).1
            (extract_movie_details title).2 ex target strm base hp

theorem c9_shape_drop (d1 : Path) (b1 f1 : Str) :
    (d1 ++ [b1, f1]).dropLast = d1 ++ [b1] := by
  rw [show d1 ++ [b1, f1] = (d1 ++ [b1]) ++ [f1] by simp]
  exact List.dropLast_concat

/-- C9 (amended): Movie and Documentary pointers do live in their own per-title
folders — for non-TV entries the containing folder determines the pointer file,
so two pointer files sharing a parent directory are one and the same file and a
recursive folder removal deletes only that entry's pointer. TV pointers do not
have this property: episodes of one season share the `Season n` folder (see the
counterexample), and the removed-entry cleanup's recursive removal of that folder
deletes sibling episodes' pointers. -/
theorem c9_theorem (e1 e2 : VodEntry) (m tv d : Path) (c1 c2 : Cache)
    (ex1 ex2 : List Str) (dr1 dr2 : Bool) (itv1 imv1 itv2 imv2 : List Str)
    (gl1 gl2 : Str → Option Str → List Str) (t1 u1 t2 u2 : Str) (p1 p2 : Path)
    (hc1 : e1.category ≠ Category.tvshow) (hc2 : e2.category ≠ Category.tvshow)
    (h1 : (process_entry e1 m tv d c1 ex1 dr1 itv1 imv1 gl1).2 = some (t1, u1, p1))
    (h2 : (process_entry e2 m tv d c2 ex2 dr2 itv2 imv2 gl2).2 = some (t2, u2, p2))
    (hpar : p1.dropLast = p2.dropLast) : p1 = p2 := by
  obtain ⟨d1, b1, hp1⟩ :=
    process_entry_non_tv_shape e1 m tv d c1 ex1 dr1 itv1 imv1 gl1 t1 u1 p1 hc1 h1
  obtain ⟨d2, b2, hp2⟩ :=
    process_entry_non_tv_shape e2 m tv d c2 ex2 dr2 itv2 imv2 gl2 t2 u2 p2 hc2 h2
  subst hp1
  subst hp2
  rw [c9_shape_drop, c9_shape_drop] at hpar
  have h' := congrArg List.reverse hpar
  simp only [List.reverse_append, List.reverse_cons, List.reverse_nil, List.nil_append,
    List.cons_append, List.cons.injEq] at h'
  obtain ⟨hb, hd⟩ := h'
  have hdd : d1 = d2 := by
    have := congrArg List.reverse hd
    simpa using this
  rw [hb, hdd]

/-- Witness for C9 (amended) at concrete inputs: two non-TV invocations whose
pointer files share a parent directory yield the same pointer path. -/
theorem c9_witness :
    (moviesD ++ ["Solo Film (2020)".toList, "Solo Film (2020).strm".toList])
      = (moviesD ++ ["Solo Film (2020)".toList, "Solo Film (2020).strm".toList]) :=
  c9_theorem ⟨"Solo Film (2020)".toList, "http://u".toList, Category.movie⟩
    ⟨"Solo Film (2020)".toList, "http://v".toList, Category.movie⟩
    moviesD tvD docsD [] [("x".toList, CacheVal.legacy "u".toList)] [] [] false false
    [] [] [] [] noGenres noGenres
    "Solo Film (2020)".toList "http://u".toList "Solo Film (2020)".toList "http://v".toList
    (moviesD ++ ["Solo Film (2020)".toList, "Solo Film (2020).strm".toList])
    (moviesD ++ ["Solo Film (2020)".toList, "Solo Film (2020).strm".toList])
    (by decide) (by decide) (by decide) (by decide) rfl

theorem crStep_fst (ct : List Str) (pe rf : Path → Bool)
    (acc : List Str × List FsOp) (q : Str × CacheVal) :
    (crStep ct pe rf acc q).1 = acc.1 ∨ (crStep ct pe rf acc q).1 = acc.1 ++ [q.1] := by
  simp only [crStep]
  split
  · exact Or.inl rfl
  · cases hq : q.2 with
    | legacy u => simp only [hq]; exact Or.inl trivial
    | stored u path => simp only [hq]; exact Or.inr trivial

theorem crStep_fst_stored (ct : List Str) (pe rf : Path → Bool)
    (acc : List Str × List FsOp) (t u : Str) (p : Path)
    (hstale : ct.contains (normalize_title_for_cleanup t) = false) :
    (crStep ct pe rf acc (t, CacheVal.stored u p)).1 = acc.1 ++ [t] := by
  simp only [crStep, hstale]
  rfl

theorem crStep_ops (ct : List Str) (pe rf : Path → Bool)
    (acc : List Str × List FsOp) (q : Str × CacheVal) :
    (crStep ct pe rf acc q).2 = acc.2
    ∨ ∃ par, rf par = false ∧ (crStep ct pe rf acc q).2 = acc.2 ++ [FsOp.rmtree par] := by
  simp only [crStep]
  split
  · exact Or.inl rfl
  · cases hq : q.2 with
    | legacy u => simp only [hq]; exact Or.inl trivial
    | stored u path =>
      simp only [hq]
      by_cases h1 : path.isEmpty = true
      · rw [if_pos h1]
        exact Or.inl rfl
      · rw [if_neg h1]
        by_cases h2 : (pe path.dropLast && !rf path.dropLast) = true
        · refine Or.inr ⟨path.dropLast, ?_, by rw [if_pos h2]⟩
          have h3 := (Bool.and_eq_true _ _).mp h2
          simpa using h3.2
        · rw [if_neg h2]
          exact Or.inl rfl

theorem cr_fold_mono (ct : List Str) (pe rf : Path → Bool) (t : Str) :
    ∀ (l : Cache) (acc : List Str × List FsOp), t ∈ acc.1 →
      t ∈ (l.foldl (crStep ct pe rf) acc).1
  | [], _, h => h
  | q :: l, acc, h => by
    simp only [List.foldl_cons]
    apply cr_fold_mono ct pe rf t l
    rcases crStep_fst ct pe rf acc q with h1 | h1 <;> rw [h1]
    · exact h
    · exact List.mem_append_left _ h

theorem cr_fold_adds (ct : List Str) (pe rf : Path → Bool) (t u : Str) (p : Path)
    (hstale : ct.contains (normalize_title_for_cleanup t) = false) :
    ∀ (l : Cache) (acc : List Str × List FsOp), (t, CacheVal.stored u p) ∈ l →
      t ∈ (l.foldl (crStep ct pe rf) acc).1
  | q :: l, acc, hmem => by
    simp only [List.foldl_cons]
    rcases List.mem_cons.mp hmem with hq | hl
    · apply cr_fold_mono ct pe rf t l
      rw [← hq, crStep_fst_stored ct pe rf acc t u p hstale]
      exact List.mem_append_right _ (List.mem_singleton.mpr rfl)
    · exact cr_fold_adds ct pe rf t u p hstale l _ hl

theorem cr_fold_ops (ct : List Str) (pe rf : Path → Bool) (dp : Path)
    (hdp : rf dp = true) :
    ∀ (l : Cache) (acc : List Str × List FsOp), FsOp.rmtree dp ∉ acc.2 →
      FsOp.rmtree dp ∉ (l.foldl (crStep ct pe rf) acc).2
  | [], _, h => h
  | q :: l, acc, h => by
    simp only [List.foldl_cons]
    apply cr_fold_ops ct pe rf dp hdp l
    rcases crStep_ops ct pe rf acc q with h1 | ⟨par, hpar, h1⟩ <;> rw [h1]
    · exact h
    · intro hmem
      rcases List.mem_append.mp hmem with hin | hone
      · exact h hin
      · rw [List.mem_singleton] at hone
        rw [FsOp.rmtree.injEq] at hone
        rw [hone] at hdp
        rw [hpar] at hdp
        exact Bool.noConfusion hdp

/-- C7 (amended): when the removed-entry cleanup's folder deletion fails, the
failure is logged and the filesystem is left untouched (no removal operation is
emitted for a folder whose deletion fails), but the stale title's cache entry is
removed anyway — the title is appended to the removal list outside the `try` — so
the deletion is not retried from the cache on the next run. -/
theorem c7_theorem (cache : Cache) (current : List VodEntry) (pe rf : Path → Bool)
    (t u : Str) (p : Path)
    (hmem : (t, CacheVal.stored u p) ∈ cache)
    (hstale : ((current.map (fun e => normalize_title_for_cleanup e.title)).contains
      (normalize_title_for_cleanup t)) = false) :
    cacheLookup (cleanup_removed_entries_from_cache cache current pe rf).1 t = none
    ∧ ∀ dp, rf dp = true →
      FsOp.rmtree dp ∉ (cleanup_removed_entries_from_cache cache current pe rf).2 := by
  have hunfold : cleanup_removed_entries_from_cache cache current pe rf
      = (cache.filter (fun pr =>
          !(cache.foldl (crStep (current.map (fun e => normalize_title_for_cleanup e.title))
            pe rf) ([], [])).1.contains pr.1),
         (cache.foldl (crStep (current.map (fun e => normalize_title_for_cleanup e.title))
            pe rf) ([], [])).2) := rfl
  rw [hunfold]
  constructor
  · have ht : t ∈ (cache.foldl (crStep
        (current.map (fun e => normalize_title_for_cleanup e.title)) pe rf) ([], [])).1 :=
      cr_fold_adds _ pe rf t u p hstale cache ([], []) hmem
    simp only [cacheLookup]
    have hfind : (cache.filter (fun pr =>
        !(cache.foldl (crStep (current.map (fun e => normalize_title_for_cleanup e.title))
          pe rf) ([], [])).1.contains pr.1)).find? (fun pr => pr.1 = t) = none := by
      rw [List.find?_eq_none]
      intro x hx
      have hx2 := (List.mem_filter.mp hx).2
      simp only [decide_eq_true_eq]
      intro hxt
      rw [hxt] at hx2
      rw [Bool.not_eq_true'] at hx2
      have ht' : (cache.foldl (crStep
          (current.map (fun e => normalize_title_for_cleanup e.title)) pe rf)
            ([], [])).1.contains t = true := List.elem_iff.mpr ht
      rw [ht'] at hx2
      exact Bool.noConfusion hx2
    rw [hfind]
  · intro dp hdp
    exact cr_fold_ops _ pe rf dp hdp cache ([], []) (by simp)

/-- Witness for C7 (amended) at a concrete input: with a one-entry cache, an
empty playlist and an always-failing remover, the stale entry disappears from the
cache while no removal operation was emitted. -/
theorem c7_witness :
    cacheLookup (cleanup_removed_entries_from_cache
        [("Gone Movie (2011)".toList, CacheVal.stored "http://u".toList
          (moviesD ++ ["Gone Movie (2011)".toList, "Gone Movie (2011).strm".toList]))]
        [] (fun _ => true) (fun _ => true)).1 "Gone Movie (2011)".toList = none
    ∧ FsOp.rmtree (moviesD ++ ["Gone Movie (2011)".toList])
      ∉ (cleanup_removed_entries_from_cache
        [("Gone Movie (2011)".toList, CacheVal.stored "http://u".toList
          (moviesD ++ ["Gone Movie (2011)".toList, "Gone Movie (2011).strm".toList]))]
        [] (fun _ => true) (fun _ => true)).2 :=
  have h := c7_theorem
    [("Gone Movie (2011)".toList, CacheVal.stored "http://u".toList
      (moviesD ++ ["Gone Movie (2011)".toList, "Gone Movie (2011).strm".toList]))]
    [] (fun _ => true) (fun _ => true) "Gone Movie (2011)".toList "http://u".toList
    (moviesD ++ ["Gone Movie (2011)".toList, "Gone Movie (2011).strm".toList])
    (by simp) (by decide)
  ⟨h.1, h.2 (moviesD ++ ["Gone Movie (2011)".toList]) rfl⟩

/-- Every whitespace character of the list is a plain space. -/
def allWsSp (l : Str) : Prop := ∀ c ∈ l, isWs c = true → c = ' '

def nrRel (a b : Char) : Prop := ¬(isWs a = true ∧ isWs b = true)

/-- No two adjacent whitespace characters. -/
def NRp (l : Str) : Prop := List.Chain' nrRel l

theorem mem_lstrip {c : Char} {l : Str} (h : c ∈ lstrip l) : c ∈ l :=
  (List.dropWhile_sublist _).mem h

theorem mem_rstrip {c : Char} {l : Str} (h : c ∈ rstrip l) : c ∈ l := by
  unfold rstrip at h
  rw [List.mem_reverse] at h
  exact List.mem_reverse.mp ((List.dropWhile_sublist _).mem h)

theorem mem_strip {c : Char} {l : Str} (h : c ∈ strip l) : c ∈ l :=
  mem_lstrip (mem_rstrip h)

theorem mem_collapse {c : Char} : ∀ {l : Str}, c ∈ collapseWs l → c ∈ l ∨ c = ' '
  | [], h => by simp [collapseWs] at h
  | a :: rest, h => by
    simp only [collapseWs] at h
    by_cases ha : isWs a = true
    · rw [if_pos ha] at h
      by_cases hh : (collapseWs rest).head? = some ' '
      · rw [if_pos hh] at h
        rcases mem_collapse h with h' | h'
        · exact Or.inl (List.mem_cons_of_mem _ h')
        · exact Or.inr h'
      · rw [if_neg hh] at h
        rcases List.mem_cons.mp h with h1 | h1
        · exact Or.inr h1
        · rcases mem_collapse h1 with h' | h'
          · exact Or.inl (List.mem_cons_of_mem _ h')
          · exact Or.inr h'
    · rw [if_neg ha] at h
      rcases List.mem_cons.mp h with h1 | h1
      · exact Or.inl (h1 ▸ List.mem_cons_self _ _)
      · rcases mem_collapse h1 with h' | h'
        · exact Or.inl (List.mem_cons_of_mem _ h')
        · exact Or.inr h'

theorem collapse_allWsSp : ∀ (l : Str), allWsSp (collapseWs l)
  | [] => by intro c hc; simp [collapseWs] at hc
  | a :: rest => by
    intro c hc hw
    simp only [collapseWs] at hc
    by_cases ha : isWs a = true
    · rw [if_pos ha] at hc
      by_cases hh : (collapseWs rest).head? = some ' '
      · rw [if_pos hh] at hc
        exact collapse_allWsSp rest c hc hw
      · rw [if_neg hh] at hc
        rcases List.mem_cons.mp hc with h1 | h1
        · exact h1
        · exact collapse_allWsSp rest c h1 hw
    · rw [if_neg ha] at hc
      rcases List.mem_cons.mp hc with h1 | h1
      · rw [h1] at hw; rw [hw] at ha; exact absurd rfl ha
      · exact collapse_allWsSp rest c h1 hw

theorem collapse_NRp : ∀ (l : Str), NRp (collapseWs l)
  | [] => List.chain'_nil
  | a :: rest => by
    have ih := collapse_NRp rest
    simp only [collapseWs]
    by_cases ha : isWs a = true
    · rw [if_pos ha]
      by_cases hh : (collapseWs rest).head? = some ' '
      · rw [if_pos hh]; exact ih
      · rw [if_neg hh]
        rcases hr : collapseWs rest with _ | ⟨b, r⟩
        · exact List.chain'_singleton _
        · rw [hr] at hh ih
          have hb : ¬ isWs b = true := by
            intro hwb
            have hbsp : b = ' ' := collapse_allWsSp rest b (by rw [hr]; exact List.mem_cons_self _ _) hwb
            rw [hbsp] at hh
            simp at hh
          exact List.chain'_cons.mpr ⟨fun hpair => hb hpair.2, ih⟩
    · rw [if_neg ha]
      rcases hr : collapseWs rest with _ | ⟨b, r⟩
      · exact List.chain'_singleton _
      · rw [hr] at ih
        exact List.chain'_cons.mpr ⟨fun hpair => ha hpair.1, ih⟩

theorem collapse_fix : ∀ (l : Str), allWsSp l → NRp l → collapseWs l = l
  | [], _, _ => rfl
  | a :: rest, hsp, hnr => by
    have hrest : collapseWs rest = rest :=
      collapse_fix rest (fun c hc hw => hsp c (List.mem_cons_of_mem _ hc) hw) hnr.tail
    simp only [collapseWs, hrest]
    by_cases ha : isWs a = true
    · rw [if_pos ha]
      have hasp : a = ' ' := hsp a (List.mem_cons_self _ _) ha
      rcases hr : rest with _ | ⟨b, r⟩
      · simp [hasp]
      · have hb : ¬ isWs b = true := by
          have := List.chain'_cons.mp (hr ▸ hnr)
          intro hwb
          exact this.1 ⟨ha, hwb⟩
        have hh : (b :: r).head? ≠ some ' ' := by
          simp only [List.head?_cons]
          intro hbsp
          injection hbsp with hbsp
          rw [hbsp] at hb
          simp [isWs] at hb
        rw [if_neg hh, hasp]
    · rw [if_neg ha]



theorem nrRel_symm {a b : Char} (h : nrRel a b) : nrRel b a := fun hp => h ⟨hp.2, hp.1⟩

theorem NRp_reverse {l : Str} (h : NRp l) : NRp l.reverse :=
  List.chain'_reverse.mpr (h.imp fun _ _ hr => nrRel_symm hr)

theorem lstrip_NRp {l : Str} (h : NRp l) : NRp (lstrip l) :=
  h.suffix (List.dropWhile_suffix _)

theorem rstrip_NRp {l : Str} (h : NRp l) : NRp (rstrip l) :=
  NRp_reverse ((NRp_reverse h).suffix (List.dropWhile_suffix _))

theorem strip_NRp {l : Str} (h : NRp l) : NRp (strip l) :=
  rstrip_NRp (lstrip_NRp h)

theorem lstrip_lstrip : ∀ (l : Str), lstrip (lstrip l) = lstrip l
  | [] => rfl
  | c :: rest => by
    unfold lstrip
    rw [List.dropWhile_cons]
    by_cases hc : isWs c = true
    · rw [if_pos hc]
      exact lstrip_lstrip rest
    · rw [if_neg hc]
      rw [List.dropWhile_cons, if_neg hc]

theorem dropWhile_append_last {p : Char → Bool} {c : Char} (hc : p c = false) :
    ∀ (l : Str), ∃ r, List.dropWhile p (l ++ [c]) = r ++ [c]
  | [] => ⟨[], by simp [List.dropWhile_cons, hc]⟩
  | a :: l => by
    rw [List.cons_append, List.dropWhile_cons]
    by_cases hpa : p a = true
    · rw [if_pos hpa]
      exact dropWhile_append_last hc l
    · rw [if_neg hpa]
      exact ⟨a :: l, rfl⟩

theorem lstrip_fix_head {c : Char} {rest : Str} (hws : lstrip (c :: rest) = c :: rest) :
    isWs c = false := by
  by_contra hcon
  have hc : isWs c = true := by
    cases hval : isWs c
    · exact absurd hval hcon
    · rfl
  unfold lstrip at hws
  rw [List.dropWhile_cons, if_pos hc] at hws
  have := congrArg List.length hws
  have hle : (List.dropWhile isWs rest).length ≤ rest.length :=
    (List.dropWhile_sublist _).length_le
  simp at this
  omega

theorem lstrip_rstrip_fix {z : Str} (hz : lstrip z = z) : lstrip (rstrip z) = rstrip z := by
  rcases z with _ | ⟨c, rest⟩
  · rfl
  · have hc : isWs c = false := lstrip_fix_head hz
    unfold rstrip
    rw [List.reverse_cons]
    obtain ⟨r, hr⟩ := @dropWhile_append_last isWs _ hc rest.reverse
    rw [hr, List.reverse_append]
    simp only [List.reverse_cons, List.reverse_nil, List.nil_append, List.cons_append,
      List.singleton_append]
    unfold lstrip
    rw [List.dropWhile_cons, if_neg (by rw [hc]; exact Bool.false_ne_true)]

theorem rstrip_rstrip (z : Str) : rstrip (rstrip z) = rstrip z := by
  unfold rstrip
  rw [List.reverse_reverse]
  rw [show List.dropWhile isWs (List.dropWhile isWs z.reverse)
      = List.dropWhile isWs z.reverse from lstrip_lstrip z.reverse]

theorem strip_strip (l : Str) : strip (strip l) = strip l := by
  unfold strip
  rw [lstrip_rstrip_fix (lstrip_lstrip l), rstrip_rstrip]



theorem allowed_ascii (c : Char) (h : allowedSan c = true) : isAsciiChar c = true := by
  unfold allowedSan at h
  unfold isAsciiChar
  simp only [Bool.or_eq_true] at h
  rcases h with (((hw | hws) | hp1) | hp2) | hp3
  · unfold isWordChar at hw
    simp only [Bool.or_eq_true] at hw
    rcases hw with (ha | hd) | hu
    · simp only [Char.isAlpha, Char.isUpper, Char.isLower, Bool.or_eq_true, Bool.and_eq_true,
        decide_eq_true_eq] at ha
      rcases ha with ⟨h1, h2⟩ | ⟨h1, h2⟩ <;>
        · have h3 : c.val.toNat ≤ 122 := le_trans h2 (by decide)
          simp only [decide_eq_true_eq]
          have h4 : c.toNat = c.val.toNat := rfl
          omega
    · simp only [Char.isDigit, Bool.and_eq_true, decide_eq_true_eq] at hd
      have h3 : c.val.toNat ≤ 57 := hd.2
      simp only [decide_eq_true_eq]
      have h4 : c.toNat = c.val.toNat := rfl
      omega
    · rw [decide_eq_true_eq] at hu
      subst hu; decide
  · unfold isWs at hws
    simp only [Bool.or_eq_true, decide_eq_true_eq] at hws
    rcases hws with ((((h1 | h1) | h1) | h1) | h1) | h1 <;> (subst h1; decide)
  · rw [decide_eq_true_eq] at hp1; subst hp1; decide
  · rw [decide_eq_true_eq] at hp2; subst hp2; decide
  · rw [decide_eq_true_eq] at hp3; subst hp3; decide

theorem sanitize_chars (x : Str) : ∀ c ∈ sanitize_title x, allowedSan c = true := by
  intro c hc
  have h1 : c ∈ collapseWs ((remove_imdb_id ((strip x).filter isAsciiChar)).filter allowedSan) :=
    mem_strip hc
  rcases mem_collapse h1 with h2 | h2
  · exact (List.mem_filter.mp h2).2
  · subst h2; decide

theorem sanitize_strip (x : Str) : strip (sanitize_title x) = sanitize_title x :=
  strip_strip _

theorem sanitize_allWsSp (x : Str) : allWsSp (sanitize_title x) := by
  intro c hc hw
  exact collapse_allWsSp _ c (mem_strip hc) hw

theorem sanitize_NRp (x : Str) : NRp (sanitize_title x) :=
  strip_NRp (collapse_NRp _)

/-- C5 (amended): sanitization is idempotent on every input whose sanitized form
is free of embedded imdb-id patterns — that is, whenever the id-removal pass
fixes `sanitize_title x`, a second sanitization changes nothing. (Unconditional
idempotence fails: character filtering can manufacture a new id pattern that
only the second pass removes, see the counterexample.) -/
theorem c5_theorem (x : Str)
    (h : remove_imdb_id (sanitize_title x) = sanitize_title x) :
    sanitize_title (sanitize_title x) = sanitize_title x := by
  have hch := sanitize_chars x
  have hasc : (sanitize_title x).filter isAsciiChar = sanitize_title x :=
    List.filter_eq_self.mpr (fun c hc => allowed_ascii c (hch c hc))
  have hall : (sanitize_title x).filter allowedSan = sanitize_title x :=
    List.filter_eq_self.mpr hch
  have hcol : collapseWs (sanitize_title x) = sanitize_title x :=
    collapse_fix _ (sanitize_allWsSp x) (sanitize_NRp x)
  show strip (collapseWs ((remove_imdb_id
      ((strip (sanitize_title x)).filter isAsciiChar)).filter allowedSan)) = sanitize_title x
  rw [sanitize_strip, hasc, h, hall, hcol, sanitize_strip]

/-- Witness for C5 (amended) at a concrete input. -/
theorem c5_witness :
    remove_imdb_id (sanitize_title "  A   Movie!! (2020) ".toList)
        = sanitize_title "  A   Movie!! (2020) ".toList
    ∧ sanitize_title (sanitize_title "  A   Movie!! (2020) ".toList)
        = sanitize_title "  A   Movie!! (2020) ".toList :=
  ⟨by decide, c5_theorem "  A   Movie!! (2020) ".toList (by decide)⟩

end M3U

namespace M3U

theorem scanTil_some_len {d : Char} : ∀ {l r : Str}, scanTil d l = some r →
    r.length < l.length
  | [], r, h => by simp [scanTil] at h
  | c :: rest, r, h => by
    unfold scanTil at h
    by_cases hc : c = d
    · rw [if_pos hc] at h
      injection h with h
      subst h
      simp
    · rw [if_neg hc] at h
      by_cases hn : c = '\n'
      · rw [if_pos hn] at h; exact absurd h (by simp)
      · rw [if_neg hn] at h
        have := scanTil_some_len h
        simp only [List.length_cons]
        omega

theorem matchYearTail_some_len {l : Str} {y r : Str} (h : matchYearTail l = some (y, r)) :
    r.length + 5 = l.length := by
  rcases l with _ | ⟨a, _ | ⟨b, _ | ⟨c, _ | ⟨d, _ | ⟨e, rest⟩⟩⟩⟩⟩
  · simp [matchYearTail] at h
  · simp [matchYearTail] at h
  · simp [matchYearTail] at h
  · simp [matchYearTail] at h
  · simp [matchYearTail] at h
  · simp only [matchYearTail] at h
    split at h
    · injection h with h
      have hr : rest = r := congrArg Prod.snd h
      subst hr
      simp
    · exact absurd h (by simp)

theorem tryCleanAt_some_len : ∀ {l r : Str}, tryCleanAt l = some r → r.length < l.length
  | [], r, h => by simp [tryCleanAt] at h
  | c :: rest, r, h => by
    simp only [tryCleanAt] at h
    by_cases h1 : c = '['
    · rw [if_pos h1] at h
      have := scanTil_some_len h
      simp only [List.length_cons]
      omega
    · rw [if_neg h1] at h
      by_cases h2 : c = '\x7b'
      · rw [if_pos h2] at h
        have := scanTil_some_len h
        simp only [List.length_cons]
        omega
      · rw [if_neg h2] at h
        by_cases h3 : c = '('
        · rw [if_pos h3] at h
          cases hm : matchYearTail rest with
          | none => rw [hm] at h; simp at h
          | some p =>
            rw [hm] at h
            simp only [Option.map_some'] at h
            injection h with h
            have h5 := @matchYearTail_some_len rest p.1 p.2
              (by rw [hm])
            subst h
            simp only [List.length_cons]
            omega
        · rw [if_neg h3] at h; simp at h

theorem tryYearAt_some_len : ∀ {l : Str} {y r : Str}, tryYearAt l = some (y, r) →
    r.length < l.length
  | [], y, r, h => by simp [tryYearAt] at h
  | c :: rest, y, r, h => by
    simp only [tryYearAt] at h
    split at h
    · cases hm : matchYearTail rest with
      | none => rw [hm] at h; simp at h
      | some p =>
        rw [hm] at h
        simp only [Option.map_some'] at h
        injection h with h
        have h2 := @matchYearTail_some_len rest p.1 p.2 (by rw [hm])
        have h3 : r = p.2 := (congrArg Prod.snd h).symm
        subst h3
        simp only [List.length_cons]
        omega
    · simp at h

end M3U

namespace M3U

theorem eatWordCI_some_len : ∀ {pat l r : Str}, eatWordCI pat l = some r →
    r.length ≤ l.length
  | [], l, r, h => by
    unfold eatWordCI at h
    injection h with h
    subst h
    exact le_refl _
  | a :: pat, [], r, h => by simp [eatWordCI] at h
  | a :: pat, b :: l, r, h => by
    unfold eatWordCI at h
    split at h
    · have := eatWordCI_some_len h
      simp only [List.length_cons]
      omega
    · simp at h

theorem tvDigits2_some_len {l : Str} {g r : Str} (h : tvDigits2 l = some (g, r)) :
    r.length ≤ l.length := by
  simp only [tvDigits2] at h
  split at h
  · simp at h
  · injection h with h
    have hr : r = (List.takeWhile Char.isDigit (List.dropWhile isWs l)).drop 4
        ++ List.dropWhile Char.isDigit (List.dropWhile isWs l) :=
      (congrArg Prod.snd h).symm
    subst hr
    have h1 : (List.takeWhile Char.isDigit (List.dropWhile isWs l)).length
        + (List.dropWhile Char.isDigit (List.dropWhile isWs l)).length
        = (List.dropWhile isWs l).length := by
      rw [← List.length_append, List.takeWhile_append_dropWhile]
    have h2 : (List.dropWhile isWs l).length ≤ l.length :=
      (List.dropWhile_sublist _).length_le
    simp only [List.length_append, List.length_drop]
    omega

theorem afterE_some_len {l : Str} {g r : Str} (h : afterE l = some (g, r)) :
    r.length ≤ l.length := by
  unfold afterE at h
  cases he : eatWordCI ['p', 'i', 's', 'o', 'd', 'e'] l with
  | none =>
    simp only [he] at h
    exact tvDigits2_some_len h
  | some l2 =>
    simp only [he] at h
    cases h2 : tvDigits2 l2 with
    | none =>
      rw [h2, Option.none_orElse] at h
      exact tvDigits2_some_len h
    | some p =>
      rw [h2, Option.some_orElse] at h
      injection h with h
      subst h
      exact le_trans (tvDigits2_some_len h2) (eatWordCI_some_len he)

theorem afterS_some_len {l : Str} {g : Str × Str} {r : Str} (h : afterS l = some (g, r)) :
    r.length ≤ l.length := by
  simp only [afterS] at h
  split at h
  · simp at h
  · split at h
    · split at h
      · rename_i x c2 r2 heq
        split at h
        · cases hae : afterE r2 with
          | none => rw [hae] at h; simp at h
          | some p =>
            rw [hae] at h
            simp only [Option.map_some'] at h
            injection h with h
            have hr : r = p.2 := (congrArg Prod.snd h).symm
            subst hr
            have h1 := @afterE_some_len r2 p.1 p.2 (by rw [hae])
            have h2 : (c2 :: r2).length ≤ l.length := by
              rw [← heq]
              calc (List.dropWhile isWs
                    (List.dropWhile Char.isDigit (List.dropWhile isWs l))).length
                  ≤ (List.dropWhile Char.isDigit (List.dropWhile isWs l)).length :=
                    (List.dropWhile_sublist _).length_le
                _ ≤ (List.dropWhile isWs l).length := (List.dropWhile_sublist _).length_le
                _ ≤ l.length := (List.dropWhile_sublist _).length_le
            simp only [List.length_cons] at h2
            omega
        · simp at h
      · simp at h
    · simp at h

theorem tryTvAt_some_len : ∀ {l : Str} {g : Str × Str} {r : Str},
    tryTvAt l = some (g, r) → r.length < l.length
  | [], g, r, h => by simp [tryTvAt] at h
  | c :: rest, g, r, h => by
    simp only [tryTvAt] at h
    split at h
    · cases he : eatWordCI ['e', 'a', 's', 'o', 'n'] rest with
      | none =>
        simp only [he] at h
        have := afterS_some_len h
        simp only [List.length_cons]
        omega
      | some rest2 =>
        simp only [he] at h
        cases ha : afterS rest2 with
        | none =>
          rw [ha, Option.none_orElse] at h
          have := afterS_some_len h
          simp only [List.length_cons]
          omega
        | some p =>
          rw [ha, Option.some_orElse] at h
          injection h with h
          subst h
          have h1 := @afterS_some_len rest2 _ _ ha
          have h2 := eatWordCI_some_len he
          simp only [List.length_cons]
          omega
    · simp at h

end M3U

namespace M3U

theorem subTvFuel_congr : ∀ (f1 f2 : Nat) (l : Str), l.length ≤ f1 → l.length ≤ f2 →
    subTvFuel f1 l = subTvFuel f2 l
  | f1, f2, [], _, _ => by cases f1 <;> cases f2 <;> rfl
  | 0, f2, c :: rest, h1, h2 => by simp at h1
  | f1 + 1, 0, c :: rest, h1, h2 => by simp at h2
  | f1 + 1, f2 + 1, c :: rest, h1, h2 => by
    simp only [subTvFuel]
    cases ht : tryTvAt (c :: rest) with
    | none =>
      simp only [List.length_cons] at h1 h2
      show c :: subTvFuel f1 rest = c :: subTvFuel f2 rest
      rw [subTvFuel_congr f1 f2 rest (by omega) (by omega)]
    | some p =>
      obtain ⟨g, r⟩ := p
      have hl := @tryTvAt_some_len (c :: rest) g r (by rw [ht])
      simp only [List.length_cons] at h1 h2 hl
      show ' ' :: subTvFuel f1 r = ' ' :: subTvFuel f2 r
      rw [subTvFuel_congr f1 f2 r (by omega) (by omega)]

theorem subTv_cons (c : Char) (rest : Str) :
    subTv (c :: rest) = (match tryTvAt (c :: rest) with
      | some p => ' ' :: subTv p.2
      | none => c :: subTv rest) := by
  show subTvFuel (rest.length + 1) (c :: rest) = _
  simp only [subTvFuel]
  cases ht : tryTvAt (c :: rest) with
  | none => rfl
  | some p =>
    obtain ⟨g, r⟩ := p
    have hl := @tryTvAt_some_len (c :: rest) g r (by rw [ht])
    simp only [List.length_cons] at hl
    show ' ' :: subTvFuel rest.length r = ' ' :: subTv r
    rw [subTvFuel_congr rest.length r.length r (by omega) (le_refl _)]
    rfl

theorem cleanSubFuel_congr : ∀ (f1 f2 : Nat) (l : Str), l.length ≤ f1 → l.length ≤ f2 →
    cleanSubFuel f1 l = cleanSubFuel f2 l
  | f1, f2, [], _, _ => by cases f1 <;> cases f2 <;> rfl
  | 0, f2, c :: rest, h1, h2 => by simp at h1
  | f1 + 1, 0, c :: rest, h1, h2 => by simp at h2
  | f1 + 1, f2 + 1, c :: rest, h1, h2 => by
    simp only [cleanSubFuel]
    cases ht : tryCleanAt (c :: rest) with
    | none =>
      simp only [List.length_cons] at h1 h2
      show c :: cleanSubFuel f1 rest = c :: cleanSubFuel f2 rest
      rw [cleanSubFuel_congr f1 f2 rest (by omega) (by omega)]
    | some r =>
      have hl := @tryCleanAt_some_len (c :: rest) r (by rw [ht])
      simp only [List.length_cons] at h1 h2 hl
      show cleanSubFuel f1 r = cleanSubFuel f2 r
      rw [cleanSubFuel_congr f1 f2 r (by omega) (by omega)]

theorem cleanSub_cons (c : Char) (rest : Str) :
    cleanSub (c :: rest) = (match tryCleanAt (c :: rest) with
      | some r => cleanSub r
      | none => c :: cleanSub rest) := by
  show cleanSubFuel (rest.length + 1) (c :: rest) = _
  simp only [cleanSubFuel]
  cases ht : tryCleanAt (c :: rest) with
  | none => rfl
  | some r =>
    have hl := @tryCleanAt_some_len (c :: rest) r (by rw [ht])
    simp only [List.length_cons] at hl
    show cleanSubFuel rest.length r = cleanSub r
    exact cleanSubFuel_congr rest.length r.length r (by omega) (le_refl _)

theorem yearSubFuel_congr : ∀ (f1 f2 : Nat) (l : Str), l.length ≤ f1 → l.length ≤ f2 →
    yearSubFuel f1 l = yearSubFuel f2 l
  | f1, f2, [], _, _ => by cases f1 <;> cases f2 <;> rfl
  | 0, f2, c :: rest, h1, h2 => by simp at h1
  | f1 + 1, 0, c :: rest, h1, h2 => by simp at h2
  | f1 + 1, f2 + 1, c :: rest, h1, h2 => by
    simp only [yearSubFuel]
    cases ht : tryYearAt (c :: rest) with
    | none =>
      simp only [List.length_cons] at h1 h2
      show c :: yearSubFuel f1 rest = c :: yearSubFuel f2 rest
      rw [yearSubFuel_congr f1 f2 rest (by omega) (by omega)]
    | some p =>
      obtain ⟨y, r⟩ := p
      have hl := @tryYearAt_some_len (c :: rest) y r (by rw [ht])
      simp only [List.length_cons] at h1 h2 hl
      show yearSubFuel f1 r = yearSubFuel f2 r
      rw [yearSubFuel_congr f1 f2 r (by omega) (by omega)]

theorem yearSub_cons (c : Char) (rest : Str) :
    yearSub (c :: rest) = (match tryYearAt (c :: rest) with
      | some p => yearSub p.2
      | none => c :: yearSub rest) := by
  show yearSubFuel (rest.length + 1) (c :: rest) = _
  simp only [yearSubFuel]
  cases ht : tryYearAt (c :: rest) with
  | none => rfl
  | some p =>
    obtain ⟨y, r⟩ := p
    have hl := @tryYearAt_some_len (c :: rest) y r (by rw [ht])
    simp only [List.length_cons] at hl
    show yearSubFuel rest.length r = yearSub r
    exact yearSubFuel_congr rest.length r.length r (by omega) (le_refl _)

end M3U

namespace M3U

theorem takeWhile_append_stop {p : Char → Bool} {s0 : Char} {S' : Str} (hp : p s0 = false) :
    ∀ q : Str, List.takeWhile p (q ++ s0 :: S') = List.takeWhile p q
      ∧ List.dropWhile p (q ++ s0 :: S') = List.dropWhile p q ++ s0 :: S'
  | [] => by
    constructor
    · simp only [List.nil_append, List.takeWhile_nil, List.takeWhile_cons, hp]
      rfl
    · simp only [List.nil_append, List.dropWhile_nil, List.dropWhile_cons, hp]
      rfl
  | a :: q => by
    simp only [List.cons_append, List.takeWhile_cons, List.dropWhile_cons]
    by_cases hpa : p a = true
    · simp only [hpa, if_true]
      exact ⟨by rw [(takeWhile_append_stop hp q).1],
        by rw [(takeWhile_append_stop hp q).2]⟩
    · simp only [hpa]
      exact ⟨rfl, by simp⟩

theorem eatWordCI_append {S : Str} (hhead : S.head? = some ' ') :
    ∀ (pat : Str), (∀ a ∈ pat, ¬ a.toLower = ' ') →
    ∀ q, eatWordCI pat (q ++ S) = (eatWordCI pat q).map (· ++ S)
  | [], _, q => by simp [eatWordCI]
  | a :: pat, hpat, [] => by
    rcases S with _ | ⟨s0, S'⟩
    · simp at hhead
    · simp only [List.head?_cons, Option.some.injEq] at hhead
      subst hhead
      simp only [List.nil_append, eatWordCI]
      rw [if_neg (by
        intro hcon
        exact hpat a (List.mem_cons_self _ _) (by rw [hcon]; rfl))]
      rfl
  | a :: pat, hpat, b :: q => by
    simp only [List.cons_append, eatWordCI]
    by_cases hab : a.toLower = b.toLower
    · rw [if_pos hab, if_pos hab]
      exact eatWordCI_append hhead pat
        (fun x hx => hpat x (List.mem_cons_of_mem _ hx)) q
    · rw [if_neg hab, if_neg hab]
      rfl

theorem mapOrElse {α β : Type} (f : α → β) :
    ∀ (x y : Option α), ((x.map f) <|> (y.map f)) = (x <|> y).map f
  | none, y => by simp
  | some a, y => by simp

end M3U

namespace M3U

theorem dropWhileWs_sfx {S2 : Str} : List.dropWhile isWs (' ' :: 'S' :: S2) = 'S' :: S2 := by
  rw [List.dropWhile_cons, if_pos (by decide), List.dropWhile_cons, if_neg (by decide)]

theorem tvDigits2_append {S2 : Str} :
    ∀ q, tvDigits2 (q ++ (' ' :: 'S' :: S2))
      = (tvDigits2 q).map (fun p => (p.1, p.2 ++ (' ' :: 'S' :: S2))) := by
  intro q
  simp only [tvDigits2]
  rw [List.dropWhile_append]
  by_cases hq : (List.dropWhile isWs q).isEmpty = true
  · rw [if_pos hq, dropWhileWs_sfx, show List.dropWhile isWs q = []
      from List.isEmpty_iff.mp hq]
    have h0 : List.takeWhile Char.isDigit ('S' :: S2) = [] := rfl
    rw [h0]
    simp
  · rw [if_neg hq]
    have hsp := @takeWhile_append_stop Char.isDigit ' ' ('S' :: S2)
      (by decide) (List.dropWhile isWs q)
    rw [hsp.1, hsp.2]
    by_cases hds : (List.takeWhile Char.isDigit (List.dropWhile isWs q)).isEmpty = true
    · rw [if_pos hds, if_pos hds]
      rfl
    · rw [if_neg hds, if_neg hds]
      simp only [Option.map_some']
      rw [List.append_assoc]

theorem afterE_append {S2 : Str} :
    ∀ q, afterE (q ++ (' ' :: 'S' :: S2))
      = (afterE q).map (fun p => (p.1, p.2 ++ (' ' :: 'S' :: S2))) := by
  intro q
  simp only [afterE]
  rw [eatWordCI_append (by rfl) ['p', 'i', 's', 'o', 'd', 'e'] (by decide) q]
  cases he : eatWordCI ['p', 'i', 's', 'o', 'd', 'e'] q with
  | none =>
    simp only [Option.map_none']
    exact tvDigits2_append q
  | some l2 =>
    simp only [Option.map_some']
    rw [tvDigits2_append l2, tvDigits2_append q]
    exact mapOrElse _ _ _

theorem afterS_append {S2 : Str} :
    ∀ q, afterS (q ++ (' ' :: 'S' :: S2))
      = (afterS q).map (fun p => (p.1, p.2 ++ (' ' :: 'S' :: S2))) := by
  intro q
  simp only [afterS]
  rw [List.dropWhile_append]
  by_cases hq : (List.dropWhile isWs q).isEmpty = true
  · rw [if_pos hq, dropWhileWs_sfx, show List.dropWhile isWs q = []
      from List.isEmpty_iff.mp hq]
    have h0 : List.takeWhile Char.isDigit ('S' :: S2) = [] := rfl
    rw [h0]
    simp
  · rw [if_neg hq]
    have hsp := @takeWhile_append_stop Char.isDigit ' ' ('S' :: S2)
      (by decide) (List.dropWhile isWs q)
    rw [hsp.1, hsp.2]
    by_cases hds : (List.takeWhile Char.isDigit (List.dropWhile isWs q)).isEmpty = true
    · rw [if_pos hds, if_pos hds]
      rfl
    · rw [if_neg hds, if_neg hds]
      by_cases hlen : (List.takeWhile Char.isDigit (List.dropWhile isWs q)).length ≤ 4
      · rw [if_pos hlen, if_pos hlen]
        rw [List.dropWhile_append]
        by_cases hr : (List.dropWhile isWs
            (List.dropWhile Char.isDigit (List.dropWhile isWs q))).isEmpty = true
        · rw [if_pos hr, dropWhileWs_sfx, show (List.dropWhile isWs
              (List.dropWhile Char.isDigit (List.dropWhile isWs q))) = []
            from List.isEmpty_iff.mp hr]
          rfl
        · rw [if_neg hr]
          rcases hshape : List.dropWhile isWs
              (List.dropWhile Char.isDigit (List.dropWhile isWs q)) with _ | ⟨c2, r2⟩
          · rw [hshape] at hr; simp at hr
          · rw [List.cons_append]
            show (if (c2 = 'E' || c2 = 'e') = true then
                Option.map (fun p =>
                  ((List.takeWhile Char.isDigit (List.dropWhile isWs q), p.1), p.2))
                  (afterE (r2 ++ ' ' :: 'S' :: S2))
              else none)
              = Option.map (fun p => (p.1, p.2 ++ ' ' :: 'S' :: S2))
                (if (c2 = 'E' || c2 = 'e') = true then
                  Option.map (fun p =>
                    ((List.takeWhile Char.isDigit (List.dropWhile isWs q), p.1), p.2))
                    (afterE r2)
                else none)
            by_cases hce : (c2 = 'E' || c2 = 'e') = true
            · rw [if_pos hce, if_pos hce]
              rw [afterE_append r2]
              cases hae : afterE r2 with
              | none => rfl
              | some p => rfl
            · rw [if_neg hce, if_neg hce]
              rfl
      · rw [if_neg hlen, if_neg hlen]
        rfl

theorem tryTvAt_append {S2 : Str} :
    ∀ p, tryTvAt (p ++ (' ' :: 'S' :: S2))
      = (tryTvAt p).map (fun x => (x.1, x.2 ++ (' ' :: 'S' :: S2)))
  | [] => by
    simp only [List.nil_append, tryTvAt]
    rw [if_neg (by decide)]
    rfl
  | c :: p' => by
    simp only [List.cons_append, tryTvAt]
    by_cases hc : (c = 'S' || c = 's') = true
    · rw [if_pos hc, if_pos hc]
      rw [eatWordCI_append (by rfl) ['e', 'a', 's', 'o', 'n'] (by decide) p']
      cases he : eatWordCI ['e', 'a', 's', 'o', 'n'] p' with
      | none =>
        simp only [Option.map_none']
        exact afterS_append p'
      | some rest2 =>
        simp only [Option.map_some']
        rw [afterS_append rest2, afterS_append p']
        exact mapOrElse _ _ _
    · rw [if_neg hc, if_neg hc]
      rfl

end M3U

namespace M3U

theorem searchTv_append {S2 : Str} :
    ∀ n, searchTv (n ++ (' ' :: 'S' :: S2))
      = (match searchTv n with
        | some g => some g
        | none => searchTv (' ' :: 'S' :: S2))
  | [] => by simp [searchTv]
  | c :: n' => by
    rw [List.cons_append, searchTv, searchTv, ← List.cons_append,
      tryTvAt_append (c :: n')]
    cases ht : tryTvAt (c :: n') with
    | none =>
      simp only [Option.map_none']
      rw [searchTv_append n']
    | some p =>
      obtain ⟨g, r⟩ := p
      simp only [Option.map_some']

theorem subTv_append_go {S2 : Str} :
    ∀ (k : Nat) (n : Str), n.length ≤ k →
      subTv (n ++ (' ' :: 'S' :: S2)) = subTv n ++ subTv (' ' :: 'S' :: S2)
  | _, [], _ => rfl
  | 0, c :: n', h => by simp at h
  | k + 1, c :: n', h => by
    rw [List.cons_append, subTv_cons, subTv_cons c n', ← List.cons_append,
      tryTvAt_append (c :: n')]
    cases ht : tryTvAt (c :: n') with
    | none =>
      simp only [Option.map_none']
      simp only [List.length_cons] at h
      rw [subTv_append_go k n' (by omega)]
      rfl
    | some p =>
      obtain ⟨g, r⟩ := p
      simp only [Option.map_some']
      have hl := @tryTvAt_some_len (c :: n') g r (by rw [ht])
      simp only [List.length_cons] at h hl
      show ' ' :: subTv (r ++ (' ' :: 'S' :: S2)) = (' ' :: subTv r) ++ _
      rw [subTv_append_go k r (by omega)]
      rfl

end M3U

namespace M3U

theorem subTv_append {S2 : Str} (n : Str) :
    subTv (n ++ (' ' :: 'S' :: S2)) = subTv n ++ subTv (' ' :: 'S' :: S2) :=
  subTv_append_go n.length n le_rfl

theorem scanTil_none {d : Char} : ∀ {l : Str}, d ∉ l → '\n' ∉ l → scanTil d l = none
  | [], _, _ => rfl
  | c :: rest, hd, hn => by
    simp only [List.mem_cons, not_or] at hd hn
    simp only [scanTil]
    rw [if_neg (fun h => hd.1 h.symm), if_neg (fun h => hn.1 h.symm)]
    exact scanTil_none hd.2 hn.2

theorem scanTil_append {d : Char} {sfx : Str} (hd : d ∉ sfx) (hn : '\n' ∉ sfx) :
    ∀ q, scanTil d (q ++ sfx) = (scanTil d q).map (· ++ sfx)
  | [] => by
    simp only [List.nil_append, scanTil_none hd hn]
    rfl
  | c :: q' => by
    simp only [List.cons_append, scanTil]
    by_cases h1 : c = d
    · rw [if_pos h1, if_pos h1]
      rfl
    · rw [if_neg h1, if_neg h1]
      by_cases h2 : c = '\n'
      · rw [if_pos h2, if_pos h2]
        rfl
      · rw [if_neg h2, if_neg h2]
        exact scanTil_append hd hn q'

theorem matchYearTail_append {S1 : Str} :
    ∀ q, matchYearTail (q ++ (' ' :: S1))
      = (matchYearTail q).map (fun p => (p.1, p.2 ++ (' ' :: S1)))
  | a :: b :: c :: d :: e :: rest => by
    simp only [List.cons_append, matchYearTail,
      apply_ite (Option.map (fun p : Str × Str => (p.1, p.2 ++ (' ' :: S1)))),
      Option.map_some', Option.map_none']
  | [] => by
    rcases S1 with _ | ⟨x1, _ | ⟨x2, _ | ⟨x3, _ | ⟨x4, S1h⟩⟩⟩⟩ <;>
      simp [matchYearTail, show Char.isDigit ' ' = false from rfl]
  | [a] => by
    rcases S1 with _ | ⟨x1, _ | ⟨x2, _ | ⟨x3, S1h⟩⟩⟩ <;>
      simp [matchYearTail, show Char.isDigit ' ' = false from rfl]
  | [a, b] => by
    rcases S1 with _ | ⟨x1, _ | ⟨x2, S1h⟩⟩ <;>
      simp [matchYearTail, show Char.isDigit ' ' = false from rfl]
  | [a, b, c] => by
    rcases S1 with _ | ⟨x1, S1h⟩ <;>
      simp [matchYearTail, show Char.isDigit ' ' = false from rfl]
  | [a, b, c, d] => by
    simp [matchYearTail]

end M3U

namespace M3U

theorem tryCleanAt_append {S1 : Str} (hb : ']' ∉ S1) (hcb : '\x7d' ∉ S1)
    (hn : '\n' ∉ S1) :
    ∀ q, tryCleanAt (q ++ (' ' :: S1)) = (tryCleanAt q).map (· ++ (' ' :: S1))
  | [] => by
    simp only [List.nil_append, tryCleanAt]
    rw [if_neg (by decide), if_neg (by decide), if_neg (by decide)]
    rfl
  | c :: q' => by
    have hb' : ']' ∉ (' ' :: S1) := by
      intro hmem
      rcases List.mem_cons.mp hmem with h | h
      · exact absurd h (by decide)
      · exact hb h
    have hcb' : '\x7d' ∉ (' ' :: S1) := by
      intro hmem
      rcases List.mem_cons.mp hmem with h | h
      · exact absurd h (by decide)
      · exact hcb h
    have hn' : '\n' ∉ (' ' :: S1) := by
      intro hmem
      rcases List.mem_cons.mp hmem with h | h
      · exact absurd h (by decide)
      · exact hn h
    simp only [List.cons_append, tryCleanAt]
    by_cases h1 : c = '['
    · rw [if_pos h1, if_pos h1]
      exact scanTil_append hb' hn' q'
    · rw [if_neg h1, if_neg h1]
      by_cases h2 : c = '\x7b'
      · rw [if_pos h2, if_pos h2]
        exact scanTil_append hcb' hn' q'
      · rw [if_neg h2, if_neg h2]
        by_cases h3 : c = '('
        · rw [if_pos h3, if_pos h3, matchYearTail_append q']
          cases matchYearTail q' <;> rfl
        · rw [if_neg h3, if_neg h3]
          rfl

theorem cleanSub_append_go {S1 : Str} (hb : ']' ∉ S1) (hcb : '\x7d' ∉ S1)
    (hn : '\n' ∉ S1) :
    ∀ (k : Nat) (q : Str), q.length ≤ k →
      cleanSub (q ++ (' ' :: S1)) = cleanSub q ++ cleanSub (' ' :: S1)
  | _, [], _ => rfl
  | 0, c :: q', h => by simp at h
  | k + 1, c :: q', h => by
    rw [List.cons_append, cleanSub_cons, cleanSub_cons c q', ← List.cons_append,
      tryCleanAt_append hb hcb hn (c :: q')]
    cases ht : tryCleanAt (c :: q') with
    | none =>
      simp only [Option.map_none']
      simp only [List.length_cons] at h
      rw [cleanSub_append_go hb hcb hn k q' (by omega)]
      rfl
    | some r =>
      simp only [Option.map_some']
      have hl := @tryCleanAt_some_len (c :: q') r ht
      simp only [List.length_cons] at h hl
      exact cleanSub_append_go hb hcb hn k r (by omega)

theorem strip_append_ws {W : Str} (hW : ∀ c ∈ W, isWs c = true) (X : Str) :
    strip (X ++ W) = strip X := by
  have hWnil : List.dropWhile isWs W = [] := by
    rw [List.dropWhile_eq_nil_iff]
    exact hW
  have hWrnil : List.dropWhile isWs W.reverse = [] := by
    rw [List.dropWhile_eq_nil_iff]
    intro c hc
    exact hW c (List.mem_reverse.mp hc)
  simp only [strip, rstrip, lstrip]
  rw [List.dropWhile_append]
  by_cases hx : (List.dropWhile isWs X).isEmpty = true
  · rw [if_pos hx, hWnil, show List.dropWhile isWs X = [] from List.isEmpty_iff.mp hx]
  · rw [if_neg hx, List.reverse_append, List.dropWhile_append, hWrnil]
    simp

end M3U

namespace M3U

theorem parse_tv_filename_append (S2 : Str) (name : Str)
    (hb : ']' ∉ 'S' :: S2) (hcb : '\x7d' ∉ 'S' :: S2) (hn : '\n' ∉ 'S' :: S2)
    (hfix : cleanSub (' ' :: 'S' :: S2) = ' ' :: 'S' :: S2)
    (hsub2 : subTv (' ' :: 'S' :: S2) = [' ', ' '])
    (g : Str × Str) (hse : searchTv (' ' :: 'S' :: S2) = some g) :
    parse_tv_filename (name ++ (' ' :: 'S' :: S2))
      = some (toLowerStr (strip (collapseWs
          ((if (strip (subTv (cleanSub name))).contains '-'
            then (strip (subTv (cleanSub name))).takeWhile (fun c => c ≠ '-')
            else strip (subTv (cleanSub name))).filter tvNameChar))),
        (match searchTv (cleanSub name) with
          | some p => p
          | none => g)) := by
  have hS : searchTv (cleanSub name ++ (' ' :: 'S' :: S2))
      = some (match searchTv (cleanSub name) with
        | some p => p
        | none => g) := by
    rw [searchTv_append (cleanSub name)]
    cases hsc : searchTv (cleanSub name) with
    | some p => rfl
    | none => exact hse
  have hsub : strip (subTv (cleanSub name ++ (' ' :: 'S' :: S2)))
      = strip (subTv (cleanSub name)) := by
    rw [subTv_append (cleanSub name), hsub2, strip_append_ws (by decide)]
  simp only [parse_tv_filename]
  rw [cleanSub_append_go hb hcb hn name.length name le_rfl, hfix, hS, hsub]

end M3U

namespace M3U

/-- C4: for every show name, the episode keys computed for
`name ++ " S01E02"` and `name ++ " Season 1 Episode 02"` agree: both titles
parse (with identical show names), the season and episode groups are equal
after zero-padding to two digits, the padded `tv_key` values coincide, and the
padded membership keys of the media-exists cleanup and the scan cleanup are
literally equal. -/
theorem c4_theorem (name : Str) :
    ∃ sh s₁ e₁ s₂ e₂ : Str,
      parse_tv_filename (name ++ " S01E02".toList) = some (sh, s₁, e₁) ∧
      parse_tv_filename (name ++ " Season 1 Episode 02".toList) = some (sh, s₂, e₂) ∧
      zfill 2 s₁ = zfill 2 s₂ ∧ zfill 2 e₁ = zfill 2 e₂ ∧
      tv_key sh s₁ e₁ = tv_key sh s₂ e₂ ∧
      media_exists_key (name ++ " S01E02".toList)
        = media_exists_key (name ++ " Season 1 Episode 02".toList) ∧
      scan_file_key (name ++ " S01E02".toList)
        = scan_file_key (name ++ " Season 1 Episode 02".toList) := by
  have e1 : " S01E02".toList = ' ' :: 'S' :: "01E02".toList := by decide
  have e2 : " Season 1 Episode 02".toList
      = ' ' :: 'S' :: "eason 1 Episode 02".toList := by decide
  have h1 := parse_tv_filename_append ("01E02".toList) name (by decide) (by decide)
    (by decide) (by decide) (by decide) ("01".toList, "02".toList) (by decide)
  have h2 := parse_tv_filename_append ("eason 1 Episode 02".toList) name (by decide)
    (by decide) (by decide) (by decide) (by decide) ("1".toList, "02".toList) (by decide)
  rw [e1, e2]
  cases hsc : searchTv (cleanSub name) with
  | some p =>
    obtain ⟨ps, pe⟩ := p
    simp only [hsc] at h1 h2
    refine ⟨_, ps, pe, ps, pe, h1, h2, rfl, rfl, rfl, ?_, ?_⟩
    · simp only [media_exists_key, h1, h2]
    · simp only [scan_file_key, h1, h2]
  | none =>
    simp only [hsc] at h1 h2
    have hz : zfill 2 "01".toList = zfill 2 "1".toList := by decide
    refine ⟨_, "01".toList, "02".toList, "1".toList, "02".toList, h1, h2,
      by decide, rfl, ?_, ?_, ?_⟩
    · simp only [tv_key, hz]
    · simp only [media_exists_key, h1, h2, hz]
    · simp only [scan_file_key, h1, h2, tv_key, hz]

end M3U
